import Mathlib

/-!
# Verification of cifsd (SMB1/CIFS server) components

A shallow embedding, in Lean 4, of the parts of the cifsd source that the
specification's checkable claims are about:

* the share host/user access checks (`chktkn`, `validate_host`, `validate_usr`
  from the export/config module),
* the VFS adapter's byte-range lock check and stream write (`check_lock_range`,
  `smb_vfs_write`), and the `READ_ANDX` handler's error mapping,
* the security-descriptor codec (`compare_sids`, `mode_to_access_flags`,
  `set_chmod_dacl`, `access_flags_to_mode`, `parse_dacl`, `parse_sec_desc`),
* the FID handle table (`cifsd_find_next_zero_bit`, `cifsd_get_unused_id`,
  `cifsd_close_id`, `insert_id_in_fidtable`, `get_id_from_fidtable`,
  `delete_id_from_fidtable`),
* the directory-enumeration loop shared by `find_first` / `find_next`,
* 8.3 short-name mangling (`smb_get_shortname`).

C strings are modelled as Lean `String`/`List Char` (ASCII), byte buffers as
`List Nat`, kernel pointers as `Option`, and errno constants as the usual
positive values negated at use sites, exactly as the C code does.  Stateful
code is modelled by explicit state passing; unbounded C loops are modelled
with an explicit fuel argument chosen large enough to be unreachable.
-/

namespace Cifsd

/-! ## errno constants (asm-generic/errno-base.h) -/

def ENOENT : Int := 2
def EAGAIN : Int := 11
def ENOMEM : Int := 12
def EACCES : Int := 13
def EINVAL : Int := 22
def EMFILE : Int := 24

/-! ## Share host / user validation (export module: `chktkn`, `validate_host`,
`validate_usr`) -/

/-- The token separators used by `strsep(&dup, "\t, ")` in `chktkn`. -/
def isTokenSep (c : Char) : Bool :=
  c == '\t' || c == ',' || c == ' '

/-- Split a character list at the `strsep` separators; consecutive separators
produce empty tokens and the empty string produces one empty token, as in C. -/
def splitTokens : List Char → List (List Char)
  | [] => [[]]
  | c :: cs =>
    let r := splitTokens cs
    if isTokenSep c then [] :: r
    else
      match r with
      | t :: ts => (c :: t) :: ts
      | [] => [[c]]

/-- The token list `strsep` produces from a user/host list string. -/
def strsepTokens (s : String) : List (List Char) :=
  splitTokens s.toList

/-- Embedding of `chktkn(userslist, str2)`: returns 1 if `str2` is a token of
`userslist`, `-ENOENT` if not, and 0 when the list pointer is NULL.  The
`kstrdup` failure path (`-ENOMEM`) is not modelled: allocation always succeeds
in the model. -/
def chktkn (userslist : Option String) (str2 : String) : Int :=
  match userslist with
  | none => 0
  | some l => if (strsepTokens l).contains str2.toList then 1 else -ENOENT

/-- Embedding of `validate_host(cip, share)`: the share's host allow/deny
check.  `allow_hosts`/`deny_hosts` are NULL (`none`) or a token list string. -/
def validate_host (allow_hosts deny_hosts : Option String) (cip : String) : Int :=
  let asz : Nat := match allow_hosts with | none => 0 | some a => a.length
  let dsz : Nat := match deny_hosts with | none => 0 | some d => d.length
  if asz = 0 ∧ dsz = 0 then 1
  else
    let allow := chktkn allow_hosts cip
    if allow = -ENOENT then -EACCES
    else if allow < 0 then allow
    else if allow > 0 then 1
    else
      let deny := chktkn deny_hosts cip
      if deny < 0 then -ENOMEM
      else if asz = 0 ∧ deny ≠ 0 then -EACCES
      else 1

/-- The share configuration fields consulted by `validate_usr`. -/
structure ShareUsrConfig where
  path : Option String
  guest_ok : Bool
  writeable : Int
  valid_users : Option String
  invalid_users : Option String
  read_list : Option String
  write_list : Option String

/-- Embedding of `validate_usr(sess, share, can_write)`: returns the status
and the final value of `*can_write` (left untouched on paths that return
before assigning it, as in C). -/
def validate_usr (share : ShareUsrConfig) (username : String) (can_write : Bool) :
    Int × Bool :=
  if share.path.isNone then (1, can_write)
  else if share.guest_ok then (1, can_write)
  else
    let ret := chktkn share.invalid_users username
    if ret = -ENOMEM then (-ENOMEM, can_write)
    else if ret > 0 then (-EACCES, can_write)
    else
      let w1 : Bool := share.writeable = 1
      let w2 : Bool := if chktkn share.read_list username > 0 then false else w1
      let w3 : Bool := if chktkn share.write_list username > 0 then true else w2
      match share.valid_users with
      | none => (1, w3)
      | some v => (chktkn (some v) username, w3)

/-- A concrete share-user configuration: path present, guest disabled,
share writeable, `bob` in both the read list and the write list. -/
def shareW : ShareUsrConfig :=
  ⟨some "/srv/share", false, 1, some "alice,bob", some "eve", some "bob", some "bob,carol"⟩

/-! ## VFS adapter: byte-range lock check (`check_lock_range`) and the
`READ_ANDX` handler (`smb_read_andx`) -/

/-- POSIX lock type (`F_RDLCK` / `F_WRLCK`). -/
inductive LockType | RD | WR
deriving DecidableEq

/-- The `type` argument of `check_lock_range` (kernel `READ`/`WRITE`). -/
inductive RwType | READ | WRITE
deriving DecidableEq

/-- One entry of the inode's `i_flctx->flc_posix` list.  `fl_file` is the
identity of the open `struct file` holding the lock. -/
structure FileLock where
  fl_start : Int
  fl_end : Int
  fl_type : LockType
  fl_file : Nat
deriving DecidableEq

/-- Embedding of `check_lock_range(filp, start, end, type)`: walk the inode's
POSIX lock list; a lock whose range `[fl_start, fl_end]` intersects
`[s, e]` conflicts when it is a read lock and the request is a write, or a
write lock held through a different `struct file`; the first conflict yields
error 1, otherwise 0. -/
def check_lock_range (filp : Nat) (s e : Int) (ty : RwType) :
    List FileLock → Int
  | [] => 0
  | fl :: rest =>
    if fl.fl_end ≥ s ∧ e ≥ fl.fl_start then
      match fl.fl_type with
      | .RD => if ty = .WRITE then 1 else check_lock_range filp s e ty rest
      | .WR => if fl.fl_file ≠ filp then 1 else check_lock_range filp s e ty rest
    else check_lock_range filp s e ty rest

/-- The fields of a looked-up `cifsd_file` that `smb_vfs_read` consults. -/
structure ReadFp where
  is_stream : Bool
  filp : Nat
  stream_val : Option (List Nat)
  data : List Nat
deriving DecidableEq

/-- `CIFS_DEFAULT_IOSIZE` (64 KiB).  Modelled from the spec: the constant is
declared in a header not under src/; it only clamps the requested count. -/
def CIFS_DEFAULT_IOSIZE : Nat := 65536

/-- Embedding of `smb_vfs_read` after the fid lookup: `none` models a failed
`get_id_from_fidtable` (`-ENOENT`); the stream branch reads from the stream
xattr; the regular branch runs `check_lock_range` over
`[pos, pos + count - 1]` and fails with `-EAGAIN` on a conflict, otherwise
returns the byte count `vfs_read` moves. -/
def smb_vfs_read (locks : List FileLock) (fpOpt : Option ReadFp) (pos : Int)
    (count : Nat) : Int :=
  match fpOpt with
  | none => -ENOENT
  | some fp =>
    if fp.is_stream then
      match fp.stream_val with
      | none => -ENOENT
      | some v => if (v.length : Int) > count then count else v.length
    else if check_lock_range fp.filp pos (pos + count - 1) RwType.READ locks ≠ 0 then
      -EAGAIN
    else if pos < 0 then -EINVAL
    else min (count : Int) (max ((fp.data.length : Int) - pos) 0)

/-- The NT statuses `smb_read_andx` can stamp into the response header, plus
the status the claim expects. -/
inductive NtStatus
  | OK
  | INVALID_HANDLE
  | FILE_LOCK_CONFLICT
deriving DecidableEq

/-- Embedding of `smb_read_andx` on a non-pipe tree connection: clamp the
count at `CIFS_DEFAULT_IOSIZE`, call `smb_vfs_read`, and on ANY negative
return stamp `NT_STATUS_INVALID_HANDLE` (the single `out:` error path);
success stamps `NT_STATUS_OK`.  Returns `(nbytes, status)`. -/
def smb_read_andx (locks : List FileLock) (fpOpt : Option ReadFp) (pos : Int)
    (count0 : Nat) : Int × NtStatus :=
  let count := if count0 > CIFS_DEFAULT_IOSIZE then CIFS_DEFAULT_IOSIZE else count0
  let nbytes := smb_vfs_read locks fpOpt pos count
  if nbytes < 0 then (nbytes, NtStatus.INVALID_HANDLE) else (nbytes, NtStatus.OK)

/-! ## VFS adapter: stream write (`smb_vfs_write`, stream branch) -/

/-- The xattr value-size cap `XATTR_SIZE_MAX`.  Modelled from the spec: the
constant comes from `linux/limits.h`, which is not under src/; the spec calls
it "the xattr-value maximum" (its Linux value is 65536). -/
def XATTR_SIZE_MAX : Nat := 65536

/-- Result of `smb_vfs_write` on an `is_stream` file: the returned error, the
value stored back into the stream xattr, and `*written`. -/
structure StreamWriteResult where
  err : Int
  stored : List Nat
  written : Nat
deriving DecidableEq

/-- `memcpy(&dst[pos], src, src.length)` over list-modelled buffers. -/
def listWriteAt (dst : List Nat) (pos : Nat) (src : List Nat) : List Nat :=
  dst.take pos ++ src ++ dst.drop (pos + src.length)

/-- Embedding of the `fp->is_stream` branch of `smb_vfs_write`:
`existing` is the current stream xattr value (`none` models the
`smb_find_cont_xattr == -ENOENT` case), `buf`/`count0` the caller's data and
count, `pos` the write offset.  The clamping follows the source exactly:
when `*pos + count` exceeds the cap, `size` becomes the cap and `count`
becomes `(*pos + count) - XATTR_SIZE_MAX`; then the buffer is grown to
`size` if needed, `count` bytes of `buf` are copied at `pos`, and `size`
bytes are stored.  (Allocation always succeeds in the model.) -/
def smb_vfs_write_stream (existing : Option (List Nat)) (buf : List Nat)
    (pos count0 : Nat) : StreamWriteResult :=
  match existing with
  | none => ⟨-ENOENT, [], 0⟩
  | some v =>
    let size0 := pos + count0
    let size := if size0 > XATTR_SIZE_MAX then XATTR_SIZE_MAX else size0
    let count := if size0 > XATTR_SIZE_MAX then (pos + count0) - XATTR_SIZE_MAX else count0
    let v_len := v.length
    let stream_buf := if v_len < size then v ++ List.replicate (size - v_len) 0 else v
    let stream_buf2 := listWriteAt stream_buf pos (buf.take count)
    ⟨0, stream_buf2.take size, count⟩

/-! ## Security-descriptor codec (cifsacl.c)

The ACE access-mask constants (`GENERIC_*`, `FILE_*`, `SET_FILE_*_RIGHTS`,
`SET_MINIMUM_RIGHTS`) are declared in `cifsacl.h`, which is not under src/.
Modelled from the spec: the spec names them "the wire right constants
(READ/WRITE/EXEC)" and `SET_MINIMUM_RIGHTS`; their values below are the
standard Windows access-mask bits these names denote.  The claims depend
only on the subset relations between the `SET_*` and `FILE_*_RIGHTS`
groups, which the names fix. -/

def NUM_AUTHS : Nat := 6

/-- A wire SID: revision, subauthority count, 6 authority bytes, and the
subauthority array. -/
structure CifsSid where
  revision : Nat
  num_subauth : Nat
  authority : List Nat
  sub_auth : List Nat
deriving DecidableEq

/-- First differing position of two equal-length scans (the element-wise
comparison loops of `compare_sids`): `some 1` / `some (-1)` at the first
difference, `none` when all compared elements match. -/
def cmpAuthLists : List Nat → List Nat → Option Int
  | a :: as_, b :: bs =>
    if a ≠ b then some (if a > b then 1 else -1) else cmpAuthLists as_ bs
  | _, _ => none

/-- Embedding of `compare_sids(ctsid, cwsid)`: 0 iff the SIDs match;
revision first, then the 6 authority values, then the first
`min(num_subauth)` subauthorities (as in the source, trailing extra
subauthorities are not compared). -/
def compare_sids (ct cw : CifsSid) : Int :=
  if ct.revision ≠ cw.revision then (if ct.revision > cw.revision then 1 else -1)
  else
    match cmpAuthLists (ct.authority.take NUM_AUTHS) (cw.authority.take NUM_AUTHS) with
    | some r => r
    | none =>
      let n := min ct.num_subauth cw.num_subauth
      match cmpAuthLists (ct.sub_auth.take n) (cw.sub_auth.take n) with
      | some r => r
      | none => 0

/-- `sid_everyone` (S-1-1-0) from cifsacl.c. -/
def sid_everyone : CifsSid := ⟨1, 1, [0, 0, 0, 0, 0, 1], [0]⟩

/-- `sid_authusers` (S-1-5-11) from cifsacl.c. -/
def sid_authusers : CifsSid := ⟨1, 1, [0, 0, 0, 0, 0, 5], [11]⟩

/-- ACE type: `ACCESS_ALLOWED` (0), `ACCESS_DENIED` (1), anything else. -/
inductive AceType | ACCESS_ALLOWED | ACCESS_DENIED | OTHER
deriving DecidableEq

/-- One wire ACE. -/
structure CifsAce where
  kind : AceType
  access_req : Nat
  sid : CifsSid
  size : Nat
deriving DecidableEq

/-- A wire ACL: declared byte size, ACE count, and the ACE records. -/
structure CifsAcl where
  size : Nat
  num_aces : Nat
  aces : List CifsAce
deriving DecidableEq

/-! POSIX mode bits (`linux/stat.h` values, in decimal). -/

def S_IRWXU : Nat := 448
def S_IRWXG : Nat := 56
def S_IRWXO : Nat := 7
def S_IRWXUGO : Nat := 511
def S_IRUGO : Nat := 292
def S_IWUGO : Nat := 146
def S_IXUGO : Nat := 73

/-! Wire access-mask bits (cifsacl.h, modelled, see the section comment). -/

def FILE_READ_DATA : Nat := 1
def FILE_WRITE_DATA : Nat := 2
def FILE_APPEND_DATA : Nat := 4
def FILE_READ_EA : Nat := 8
def FILE_WRITE_EA : Nat := 16
def FILE_EXECUTE : Nat := 32
def FILE_DELETE_CHILD : Nat := 64
def FILE_READ_ATTRIBUTES : Nat := 128
def FILE_WRITE_ATTRIBUTES : Nat := 256

/-- The wire right `DELETE` (0x10000). -/
def DELETE_RIGHT : Nat := 65536
def READ_CONTROL : Nat := 131072
def WRITE_DAC : Nat := 262144
def WRITE_OWNER : Nat := 524288
def SYNCHRONIZE : Nat := 1048576
def GENERIC_ALL : Nat := 268435456
def GENERIC_EXECUTE : Nat := 536870912
def GENERIC_WRITE : Nat := 1073741824
def GENERIC_READ : Nat := 2147483648

def FILE_READ_RIGHTS : Nat :=
  FILE_READ_DATA ||| FILE_READ_EA ||| FILE_READ_ATTRIBUTES ||| READ_CONTROL ||| SYNCHRONIZE
def FILE_WRITE_RIGHTS : Nat :=
  FILE_WRITE_DATA ||| FILE_APPEND_DATA ||| FILE_WRITE_EA ||| FILE_WRITE_ATTRIBUTES |||
    READ_CONTROL ||| SYNCHRONIZE
def FILE_EXEC_RIGHTS : Nat := FILE_EXECUTE ||| READ_CONTROL ||| SYNCHRONIZE

def SET_FILE_READ_RIGHTS : Nat :=
  FILE_READ_DATA ||| FILE_READ_EA ||| FILE_READ_ATTRIBUTES ||| DELETE_RIGHT |||
    READ_CONTROL ||| WRITE_DAC ||| WRITE_OWNER ||| SYNCHRONIZE
def SET_FILE_WRITE_RIGHTS : Nat :=
  FILE_WRITE_DATA ||| FILE_APPEND_DATA ||| FILE_WRITE_EA ||| FILE_DELETE_CHILD |||
    FILE_WRITE_ATTRIBUTES ||| DELETE_RIGHT ||| READ_CONTROL ||| WRITE_DAC |||
    WRITE_OWNER ||| SYNCHRONIZE
def SET_FILE_EXEC_RIGHTS : Nat :=
  FILE_READ_EA ||| FILE_WRITE_EA ||| FILE_EXECUTE ||| FILE_READ_ATTRIBUTES |||
    FILE_WRITE_ATTRIBUTES ||| DELETE_RIGHT ||| READ_CONTROL ||| WRITE_DAC |||
    WRITE_OWNER ||| SYNCHRONIZE
def SET_MINIMUM_RIGHTS : Nat :=
  FILE_READ_EA ||| FILE_READ_ATTRIBUTES ||| READ_CONTROL ||| SYNCHRONIZE

/-- Embedding of `mode_to_access_flags(mode, bits_to_use, &pace_flags)`:
restrict the mode to one rwx triplet and translate each present right into
the corresponding `SET_FILE_*_RIGHTS` mask. -/
def mode_to_access_flags (mode bits_to_use : Nat) : Nat :=
  let m := mode &&& bits_to_use
  let f : Nat := 0
  let f := if m &&& S_IRUGO ≠ 0 then f ||| SET_FILE_READ_RIGHTS else f
  let f := if m &&& S_IWUGO ≠ 0 then f ||| SET_FILE_WRITE_RIGHTS else f
  let f := if m &&& S_IXUGO ≠ 0 then f ||| SET_FILE_EXEC_RIGHTS else f
  f

/-- The SID copy `fill_ace_for_sid` performs field by field: `NUM_AUTHS`
authority entries and `num_subauth` subauthority entries. -/
def copy_sid_for_ace (psid : CifsSid) : CifsSid :=
  ⟨psid.revision, psid.num_subauth, psid.authority.take NUM_AUTHS,
   psid.sub_auth.take psid.num_subauth⟩

/-- Embedding of `fill_ace_for_sid(pntace, psid, nmode, bits)`: an
ACCESS_ALLOWED ACE whose mask comes from `mode_to_access_flags`, or
`SET_MINIMUM_RIGHTS` when that is zero; the size is
`1+1+2+4+1+1+6 + 4*num_subauth` as in the source. -/
def fill_ace_for_sid (psid : CifsSid) (nmode bits : Nat) : CifsAce :=
  let access_req0 := mode_to_access_flags nmode bits
  let access_req := if access_req0 = 0 then SET_MINIMUM_RIGHTS else access_req0
  ⟨AceType.ACCESS_ALLOWED, access_req, copy_sid_for_ace psid,
   1 + 1 + 2 + 4 + 1 + 1 + 6 + psid.num_subauth * 4⟩

/-- Embedding of `set_chmod_dacl(pndacl, pownersid, pgrpsid, nmode)`:
exactly three ALLOWED ACEs — owner with `S_IRWXU`, group with `S_IRWXG`,
everyone with `S_IRWXO`. -/
def set_chmod_dacl (pownersid pgrpsid : CifsSid) (nmode : Nat) : CifsAcl :=
  let a1 := fill_ace_for_sid pownersid nmode S_IRWXU
  let a2 := fill_ace_for_sid pgrpsid nmode S_IRWXG
  let a3 := fill_ace_for_sid sid_everyone nmode S_IRWXO
  ⟨a1.size + a2.size + a3.size + 8, 3, [a1, a2, a3]⟩

/-- The C `a &= ~b` on mode bitfields: clear in `a` every bit of `b`
(written as xor with the common bits so it evaluates in the kernel). -/
def andNot (a b : Nat) : Nat := a ^^^ (a &&& b)

/-- Embedding of `access_flags_to_mode(ace_flags, type, pmode,
pbits_to_set)`: DENY ACEs mask bits out of `pbits_to_set`; ALLOW ACEs set
`pmode` bits through the current mask; mask and mode are returned as a
pair.  Branch order (ALL, WRITE, READ, EXECUTE) follows the source. -/
def access_flags_to_mode (flags : Nat) (ty : AceType) (pmode pbits : Nat) : Nat × Nat :=
  match ty with
  | AceType.ACCESS_DENIED =>
    let pbits := if flags &&& GENERIC_ALL ≠ 0 then andNot pbits S_IRWXUGO else pbits
    let pbits :=
      if flags &&& GENERIC_WRITE ≠ 0 ∨ flags &&& FILE_WRITE_RIGHTS = FILE_WRITE_RIGHTS then
        andNot pbits S_IWUGO else pbits
    let pbits :=
      if flags &&& GENERIC_READ ≠ 0 ∨ flags &&& FILE_READ_RIGHTS = FILE_READ_RIGHTS then
        andNot pbits S_IRUGO else pbits
    let pbits :=
      if flags &&& GENERIC_EXECUTE ≠ 0 ∨ flags &&& FILE_EXEC_RIGHTS = FILE_EXEC_RIGHTS then
        andNot pbits S_IXUGO else pbits
    (pmode, pbits)
  | AceType.OTHER => (pmode, pbits)
  | AceType.ACCESS_ALLOWED =>
    if flags &&& GENERIC_ALL ≠ 0 then (pmode ||| (S_IRWXUGO &&& pbits), pbits)
    else
      let pmode :=
        if flags &&& GENERIC_WRITE ≠ 0 ∨ flags &&& FILE_WRITE_RIGHTS = FILE_WRITE_RIGHTS then
          pmode ||| (S_IWUGO &&& pbits) else pmode
      let pmode :=
        if flags &&& GENERIC_READ ≠ 0 ∨ flags &&& FILE_READ_RIGHTS = FILE_READ_RIGHTS then
          pmode ||| (S_IRUGO &&& pbits) else pmode
      let pmode :=
        if flags &&& GENERIC_EXECUTE ≠ 0 ∨ flags &&& FILE_EXEC_RIGHTS = FILE_EXEC_RIGHTS then
          pmode ||| (S_IXUGO &&& pbits) else pmode
      (pmode, pbits)

/-- One iteration of the `parse_dacl` ACE loop: the four sequential SID
comparisons (owner, group, everyone, authenticated-users), each feeding
`access_flags_to_mode` with its own mask slot.  The state is
`(cf_mode, user_mask, group_mask, other_mask)`. -/
def processAce (pownersid pgrpsid : CifsSid) (st : Nat × Nat × Nat × Nat)
    (ace : CifsAce) : Nat × Nat × Nat × Nat :=
  let m := st.1
  let um := st.2.1
  let gm := st.2.2.1
  let om := st.2.2.2
  let r1 := if compare_sids ace.sid pownersid = 0 then
      access_flags_to_mode ace.access_req ace.kind m um else (m, um)
  let r2 := if compare_sids ace.sid pgrpsid = 0 then
      access_flags_to_mode ace.access_req ace.kind r1.1 gm else (r1.1, gm)
  let r3 := if compare_sids ace.sid sid_everyone = 0 then
      access_flags_to_mode ace.access_req ace.kind r2.1 om else (r2.1, om)
  let r4 := if compare_sids ace.sid sid_authusers = 0 then
      access_flags_to_mode ace.access_req ace.kind r3.1 r3.2 else (r3.1, r3.2)
  (r4.1, r1.2, r2.2, r4.2)

/-- Embedding of `parse_dacl(pdacl, end_of_acl, pownersid, pgrpsid, fattr)`
acting on `fattr->cf_mode`: a NULL DACL sets all rwx bits; `size_ok` is the
`end_of_acl < pdacl + size` buffer validation (the structured model carries
it as a flag); otherwise the rwx bits are cleared and each of the first
`num_aces` ACEs is processed with masks `S_IRWXU` / `S_IRWXG` /
`S_IRWXU|S_IRWXG|S_IRWXO`.  The `num_aces > ULONG_MAX / sizeof(ptr)` guard
is the kmalloc-overflow check of the source. -/
def parse_dacl (pdacl : Option CifsAcl) (size_ok : Bool)
    (pownersid pgrpsid : CifsSid) (cf_mode : Nat) : Nat :=
  match pdacl with
  | none => cf_mode ||| S_IRWXUGO
  | some dacl =>
    if ¬size_ok then cf_mode
    else
      let cf1 := andNot cf_mode S_IRWXUGO
      if dacl.num_aces > 0 then
        if dacl.num_aces > (2 ^ 64 - 1) / 8 then cf1
        else
          ((dacl.aces.take dacl.num_aces).foldl (processAce pownersid pgrpsid)
            (cf1, S_IRWXU, S_IRWXG, S_IRWXU ||| S_IRWXG ||| S_IRWXO)).1
      else cf1

/-- A security descriptor as `parse_sec_desc` reads it: owner and group
SIDs, the DACL offset, and the DACL found there (meaningful only when the
offset is non-zero). -/
structure CifsNtsd where
  osid : CifsSid
  gsid : CifsSid
  dacloffset : Nat
  dacl : CifsAcl
deriving DecidableEq

/-- Embedding of `parse_sec_desc(pntsd, acl_len, fattr)` on `cf_mode`: the
SID parses and `sid_to_id` lookups always succeed on structured input
(`sid_to_id` returns 0 unconditionally in the source); `parse_dacl` is
invoked only when `dacloffset` is non-zero — a descriptor with no DACL
leaves `cf_mode` untouched. -/
def parse_sec_desc (ntsd : CifsNtsd) (size_ok : Bool) (cf_mode : Nat) : Int × Nat :=
  if ntsd.dacloffset ≠ 0 then
    (0, parse_dacl (some ntsd.dacl) size_ok ntsd.osid ntsd.gsid cf_mode)
  else (0, cf_mode)

/-- A concrete owner SID (S-1-5-21-512). -/
def sidO : CifsSid := ⟨1, 2, [0, 0, 0, 0, 0, 5], [21, 512]⟩

/-- A concrete group SID (S-1-5-21-513), distinct from `sidO`. -/
def sidG : CifsSid := ⟨1, 2, [0, 0, 0, 0, 0, 5], [21, 513]⟩

/-- The ACE mask `fill_ace_for_sid` produces for one triplet. -/
def encodeFlags (nmode bits : Nat) : Nat :=
  let f := mode_to_access_flags nmode bits
  if f = 0 then SET_MINIMUM_RIGHTS else f

/-- The `parse_dacl` fold specialised to the three ACEs of
`set_chmod_dacl`, with the SID comparisons already resolved (owner ACE hits
the user mask, group ACE the group mask, everyone ACE the other mask). -/
def decodeTriple (m m0 : Nat) : Nat :=
  let cf1 := andNot m0 S_IRWXUGO
  let r1 := access_flags_to_mode (encodeFlags m S_IRWXU) AceType.ACCESS_ALLOWED cf1 S_IRWXU
  let r2 := access_flags_to_mode (encodeFlags m S_IRWXG) AceType.ACCESS_ALLOWED r1.1 S_IRWXG
  let r3 := access_flags_to_mode (encodeFlags m S_IRWXO) AceType.ACCESS_ALLOWED r2.1
    (S_IRWXU ||| S_IRWXG ||| S_IRWXO)
  r3.1

/-- The mode the decode actually yields for an encoded mode `m`: `m`'s rwx
bits with the other-triplet rights also replicated into the user and group
triplets (because `parse_dacl`'s `other_mask` is `S_IRWXU|S_IRWXG|S_IRWXO`,
not `S_IRWXO`). -/
def decodeExpected (m : Nat) : Nat :=
  (m &&& 511) ||| (if m &&& 4 ≠ 0 then S_IRUGO else 0) |||
    (if m &&& 2 ≠ 0 then S_IWUGO else 0) ||| (if m &&& 1 ≠ 0 then S_IXUGO else 0)

/-- An ACL declaring zero ACEs. -/
def emptyAcl : CifsAcl := ⟨8, 0, []⟩

/-- A descriptor with `dacloffset = 0` (no DACL). -/
def ntsdNoDacl : CifsNtsd := ⟨sidO, sidG, 0, emptyAcl⟩

/-! ## FID handle table (fh.c) -/

/-- The `FP_NEW / FP_READY / FP_FREEING` tri-state of a `cifsd_file`. -/
inductive FpState | FP_NEW | FP_READY | FP_FREEING
deriving DecidableEq

/-- The `cifsd_file` fields the handle-table operations touch: the state tag,
the refcount `f_count`, and the tree id set at insertion. -/
structure CifsdFile where
  f_state : FpState
  f_count : Nat
  tid : Nat
deriving DecidableEq

/-- `CIFSD_START_FID`.  Modelled from the spec: the constant lives in a
header not under src/; the spec says the initial `start_pos = 1` reserves
id 0 as "invalid", so the first usable fid is 1. -/
def CIFSD_START_FID : Nat := 1

/-- `CIFSD_BITMAP_SIZE`, the absolute growth ceiling.  Modelled from the
spec: the header holding it is not under src/; its exact value only caps
growth and does not affect the claims, 65536 (the 16-bit fid space). -/
def CIFSD_BITMAP_SIZE : Nat := 65536

/-- The per-session fid table: a pointer array and a bitmap of `max_fids`
entries plus the next-free scan hint `start_pos` (the spinlock is implicit
in the sequential model). -/
structure Fidtable where
  max_fids : Nat
  fileid : List (Option CifsdFile)
  bitmap : List Bool
  start_pos : Nat
deriving DecidableEq

/-- `cifsd_find_next_zero_bit(bitmap, size, offset)`: index of the first
clear bit in `[offset, size)`, or `size` when every bit is set. -/
def cifsd_find_next_zero_bit (bitmap : List Bool) (size offset : Nat) : Nat :=
  match ((List.range size).drop offset).find? (fun i => !(bitmap.getD i false)) with
  | some i => i
  | none => size

/-- Kernel `roundup_pow_of_two`: the least power of two ≥ n (for n ≥ 1). -/
def roundup_pow_of_two (n : Nat) : Nat := 2 ^ (Nat.clog 2 n)

/-- Embedding of `grow_fidtable(ftab_desc, num)`: round the requested count
up in units of `1024 / sizeof(void *) = 128` to the next power of two,
refuse at the `CIFSD_BITMAP_SIZE` ceiling, and replace the table by a copy
extended with cleared slots (allocation always succeeds in the model;
`copy_fidtable` copies the old entries and zeroes the rest). -/
def grow_fidtable (ftab : Fidtable) (num0 : Nat) : Int × Fidtable :=
  let num := (roundup_pow_of_two (num0 / (1024 / 8) + 1)) * (1024 / 8)
  if num ≥ CIFSD_BITMAP_SIZE + 1 then (-EMFILE, ftab)
  else if num ≤ num0 then (-EMFILE, ftab)
  else if num ≥ ftab.max_fids then
    (1, { max_fids := num,
          fileid := ftab.fileid ++ List.replicate (num - ftab.max_fids) none,
          bitmap := ftab.bitmap ++ List.replicate (num - ftab.max_fids) false,
          start_pos := ftab.start_pos })
  else (1, ftab)

/-- The `repeat:` loop of `cifsd_get_unused_id`, with explicit fuel for the
grow-and-retry iteration (the fuel is chosen so exhaustion is unreachable):
scan for the first zero bit from `start_pos`; if the scan fails, grow and
retry; otherwise set the bit, advance the hint, and return the id. -/
def cifsd_get_unused_id_loop : Nat → Fidtable → Int × Fidtable
  | 0, ftab => (-EMFILE, ftab)
  | fuel + 1, ftab =>
    let id := cifsd_find_next_zero_bit ftab.bitmap ftab.max_fids ftab.start_pos
    if id > ftab.max_fids - 1 then
      let r := grow_fidtable ftab id
      if r.1 = 1 then cifsd_get_unused_id_loop fuel r.2
      else (r.1, ftab)
    else
      ((id : Int), { ftab with bitmap := ftab.bitmap.set id true, start_pos := id + 1 })

/-- `cifsd_get_unused_id(ftab_desc)`. -/
def cifsd_get_unused_id (ftab : Fidtable) : Int × Fidtable :=
  cifsd_get_unused_id_loop (CIFSD_BITMAP_SIZE + 1) ftab

/-- Embedding of `cifsd_close_id(ftab_desc, id)`: reject
`id >= max_fids - 1` as invalid, otherwise clear the bitmap bit and move the
scan hint down. -/
def cifsd_close_id (ftab : Fidtable) (id : Nat) : Int × Fidtable :=
  if id ≥ ftab.max_fids - 1 then (-EINVAL, ftab)
  else
    let sp := if id < ftab.start_pos then id else ftab.start_pos
    (0, { ftab with bitmap := ftab.bitmap.set id false, start_pos := sp })

/-- Embedding of `insert_id_in_fidtable(sess, …, id, filp)`: allocate a
zeroed `cifsd_file` in state `FP_NEW`, publish it in slot `id` (the
`BUG_ON(ftab->fileid[id] != NULL)` precondition is the caller's), and return
`ftab->fileid[id]`. -/
def insert_id_in_fidtable (ftab : Fidtable) (id tid : Nat) : Option CifsdFile × Fidtable :=
  let fp : CifsdFile := ⟨FpState.FP_NEW, 0, tid⟩
  let ftab2 := { ftab with fileid := ftab.fileid.set id (some fp) }
  (ftab2.fileid.getD id none, ftab2)

/-- Embedding of `get_id_from_fidtable(sess, id)`: range-check
`[CIFSD_START_FID, max_fids - 1]`, read the slot, refuse a file in
`FP_FREEING`, otherwise `fp_get` (increment `f_count`) and return the file.
The returned pair is (result, table with the refcount bump visible). -/
def get_id_from_fidtable (ftab : Fidtable) (id : Nat) : Option CifsdFile × Fidtable :=
  if id < CIFSD_START_FID ∨ id > ftab.max_fids - 1 then (none, ftab)
  else
    match ftab.fileid.getD id none with
    | none => (none, ftab)
    | some f =>
      if f.f_state = FpState.FP_FREEING then (none, ftab)
      else
        let f2 : CifsdFile := { f with f_count := f.f_count + 1 }
        (some f2, { ftab with fileid := ftab.fileid.set id (some f2) })

/-- Embedding of `delete_id_from_fidtable(sess, id)`: null the slot (the
free/wait machinery is teardown concurrency, outside the sequential
model). -/
def delete_id_from_fidtable (ftab : Fidtable) (id : Nat) : Fidtable :=
  { ftab with fileid := ftab.fileid.set id none }

/-- A fid table with one slot overwritten (helper for stating lookups). -/
def fidtable_with_slot (ftab : Fidtable) (id : Nat) (v : Option CifsdFile) : Fidtable :=
  { ftab with fileid := ftab.fileid.set id v }

/-- `fp_get`: the refcount bump a successful lookup applies. -/
def fp_inc (fp : CifsdFile) : CifsdFile :=
  { fp with f_count := fp.f_count + 1 }

/-- A 64-entry fid table whose bits 0–62 are taken and bit 63 (the topmost
id, `max_fids - 1`) is free, scan hint 1. -/
def ftabTop : Fidtable :=
  { max_fids := 64,
    fileid := List.replicate 64 none,
    bitmap := List.replicate 63 true ++ [false],
    start_pos := 1 }

/-! ## 8.3 short-name mangling (`smb_get_shortname` in smb1pdu.c) -/

/-- `MANGLE_BASE = sizeof(basechars)/sizeof(char) - 1`.  The C array is
`static const char basechars[43]` holding the 43-character alphabet with no
room for a NUL, so `sizeof` is 43 and `MANGLE_BASE` is 42 — not 43. -/
def MANGLE_BASE : Nat := 42

/-- The mangling alphabet `basechars` from smb1pdu.c. -/
def basechars : List Char := "0123456789ABCDEFGHIJKLMNOPQRSTUVWXYZ_-!@#$%".toList

/-- `mangle(V) = basechars[V % MANGLE_BASE]`. -/
def mangle (v : Nat) : Char := basechars.getD (v % MANGLE_BASE) '0'

/-- Index of the last occurrence of `c` (the C `strrchr`). -/
def lastIdxOf (c : Char) : List Char → Option Nat
  | [] => none
  | x :: xs =>
    match lastIdxOf c xs with
    | some i => some (i + 1)
    | none => if x = c then some 0 else none

/-- `csum` accumulation: the sum of the bytes of the long name (ASCII model:
`Char.toNat` is the byte value). -/
def nameByteSum (s : String) : Nat := (s.toList.map Char.toNat).sum

/-- Embedding of `smb_get_shortname(conn, longname, shortname)`: returns the
returned length and the characters of the generated 8.3 name (the `out`
buffer; the trailing UTF-16 conversion of ASCII is modelled by the characters
themselves, and the returned length is `strlen(out) * 2`).  Names whose first
character is a dot (which subsumes the `".."` strcmp) return length 0 with no
short name generated. -/
def smb_get_shortname (longname : String) : Nat × List Char :=
  let cs := longname.toList
  if cs.head? = some '.' ∨ longname = ".." then (0, [])
  else
    let lastDot := lastIdxOf '.' cs
    let dot_present : Bool := lastDot.isSome
    let extension : List Char :=
      match lastDot with
      | some 0 => ['_', '_', '_']
      | some i => (((cs.drop (i + 1)).filter (fun c => c ≠ '.')).take 3).map Char.toUpper
      | none => []
    let base := ((cs.filter (fun c => c ≠ '.')).take 5).map Char.toUpper
    let csum := nameByteSum longname % (MANGLE_BASE * MANGLE_BASE)
    let out := base ++ ['~', mangle (csum / MANGLE_BASE), mangle csum, '.']
      ++ (if dot_present then extension else [])
    (2 * out.length, out)

/-- The short name as the claim words it (refinement reference, NOT from the
source): base-43 encoding of `sum(name bytes) mod 43²` over the full
43-character alphabet, and a `___` extension for names starting with a dot. -/
def claim_shortname (longname : String) : List Char :=
  let cs := longname.toList
  let base := ((cs.filter (fun c => c ≠ '.')).take 5).map Char.toUpper
  let csum := nameByteSum longname % (43 * 43)
  let extension : List Char :=
    if cs.head? = some '.' then ['_', '_', '_']
    else match lastIdxOf '.' cs with
      | some i => (((cs.drop (i + 1)).filter (fun c => c ≠ '.')).take 3).map Char.toUpper
      | none => []
  base ++ ['~', basechars.getD (csum / 43) '0', basechars.getD (csum % 43) '0', '.'] ++ extension

/-! ## Directory enumeration engine (`find_first` / `find_next` in smb1pdu.c)

The model captures the loop both handlers share: a page-sized in-memory
dirent buffer refilled from the directory stream by `smb_vfs_readdir` /
`smb_filldir`, a byte cursor `dirent_offset`, and the response-building
`smb_populate_readdir_entry` with its `convname_updatenextoffset` size
bookkeeping.  `struct smb_dirent` is 24 bytes (two `__le64` plus two
`__le32`, from a header not under src/); names are ASCII lists and the
UTF-16 name length is `2 * (len + 1)` counting the NUL the conversion
appends.  The per-level `sizeof` of the wire info struct and the computed
response budget `out_buf_len` are parameters (`infoSize`, `outBufLen`),
since the wire struct headers are not under src/ and the claims do not
depend on their values. -/

structure SmbDirent where
  name : List Char
deriving DecidableEq, Inhabited

def sizeof_smb_dirent : Nat := 24

def PAGE_SIZE : Nat := 4096

/-- `ALIGN(x, 8)`. -/
def ALIGN8 (n : Nat) : Nat := ((n + 7) / 8) * 8

/-- `reclen = ALIGN(sizeof(struct smb_dirent) + namelen, sizeof(__le64))`. -/
def direntReclen (d : SmbDirent) : Nat := ALIGN8 (sizeof_smb_dirent + d.name.length)

/-- `iterate_dir` driving `smb_filldir`: pack records into the page until
the next would exceed `PAGE_SIZE` (then stop with `full = 1`).  Returns
(records packed, bytes used, full flag, entries left in the stream). -/
def fillPage : List SmbDirent → Nat → (List SmbDirent × Nat × Bool × List SmbDirent)
  | [], used => ([], used, false, [])
  | d :: ds, used =>
    if used + direntReclen d > PAGE_SIZE then ([], used, true, d :: ds)
    else
      let r := fillPage ds (used + direntReclen d)
      (d :: r.1, r.2.1, r.2.2.1, r.2.2.2)

/-- The directory-file cursor state: the page buffer (`readdir_data.dirent`
as a record list), `used`, `full`, the consume offset `dirent_offset`, and
the not-yet-read remainder of the directory (the kernel `f_pos`). -/
structure DirCtx where
  buffer : List SmbDirent
  used : Nat
  bufFull : Bool
  dirent_offset : Nat
  stream : List SmbDirent
deriving DecidableEq

/-- Total in-memory record bytes of a dirent list. -/
def sumRec (l : List SmbDirent) : Nat := (l.map direntReclen).sum

/-- The records of the buffer from byte offset `off` on (empty on a
misaligned offset, which well-formed states never produce). -/
def direntsFrom : List SmbDirent → Nat → List SmbDirent
  | l, 0 => l
  | [], _ + 1 => []
  | d :: ds, off + 1 =>
    if off + 1 < direntReclen d then [] else direntsFrom ds (off + 1 - direntReclen d)

/-- The record at byte offset `off` (the `de` pointer computed from
`dirent + dirent_offset`). -/
def direntAt : List SmbDirent → Nat → Option SmbDirent
  | [], _ => none
  | d :: ds, off =>
    if off = 0 then some d
    else if off < direntReclen d then none
    else direntAt ds (off - direntReclen d)

/-- The directory entries the enumeration has not yet emitted: the unread
part of the buffer followed by the unread stream. -/
def remaining (ctx : DirCtx) : List SmbDirent :=
  direntsFrom ctx.buffer ctx.dirent_offset ++ ctx.stream

/-- Well-formed cursor states: `dirent_offset` sits on a record boundary
and `used` counts the whole buffer. -/
def ctxWF (ctx : DirCtx) : Prop :=
  (∃ pre suf, ctx.buffer = pre ++ suf ∧ ctx.dirent_offset = sumRec pre)
    ∧ ctx.used = sumRec ctx.buffer

/-- The `dir_fp->dirent_offset -= reclen` rewind. -/
def rewindCtx (ctx : DirCtx) (rl : Nat) : DirCtx :=
  { ctx with dirent_offset := ctx.dirent_offset - rl }

/-- One fetch step of the loop: refill the page when the buffer is consumed
(`dirent_offset >= used`), ending the enumeration when the refill produces
nothing; otherwise read the record at `dirent_offset`. -/
def fetchEntry (ctx : DirCtx) : Option (DirCtx × SmbDirent) :=
  if ctx.dirent_offset ≥ ctx.used then
    let r := fillPage ctx.stream 0
    if r.2.1 = 0 then none
    else
      match r.1 with
      | [] => none
      | d :: _ => some (⟨r.1, r.2.1, r.2.2.1, 0, r.2.2.2⟩, d)
  else
    match direntAt ctx.buffer ctx.dirent_offset with
    | none => none
    | some d => some (ctx, d)

/-- The response-building accumulator of one FIND_FIRST / FIND_NEXT call:
`out_buf_len`, `data_count`, `last_entry_offset`, `num_entry`, and the
entries serialized so far. -/
structure EmitSt where
  out_buf_len : Int
  data_count : Nat
  last_entry_offset : Nat
  num_entry : Nat
  emitted : List SmbDirent
deriving DecidableEq

/-- UTF-16 byte length of the name as `smbConvertToUTF16` reports it for
ASCII input (including the appended NUL character). -/
def name_len_utf16 (d : SmbDirent) : Nat := 2 * (d.name.length + 1)

/-- `convname_updatenextoffset`'s
`(size - 1 + name_len + alignment) & ~alignment` with `alignment = 3`:
the 4-byte-aligned wire record length for info-struct size `infoSize`. -/
def next_entry_offset (infoSize : Nat) (d : SmbDirent) : Nat :=
  ((infoSize - 1 + name_len_utf16 d + 3) / 4) * 4

/-- `smb_populate_readdir_entry` for one candidate record: if the wire
record does not fit the remaining `buf_len`, set `buf_len = -1` and emit
nothing; otherwise record `last_entry_offset = data_count`, account the
record, and append it. -/
def populateEntry (infoSize : Nat) (st : EmitSt) (d : SmbDirent) : EmitSt :=
  let neo := next_entry_offset infoSize d
  if (neo : Int) > st.out_buf_len then { st with out_buf_len := -1 }
  else
    ⟨st.out_buf_len - neo, st.data_count + neo, st.data_count, st.num_entry + 1,
     st.emitted ++ [d]⟩

/-- The `do { … } while (out_buf_len >= 0)` loop shared by `find_first` and
`find_next`, with explicit fuel (chosen in `runBatch` so exhaustion is
unreachable).  Returns the cursor, the accumulator, the ended-by-empty-
readdir flag, and the last `reclen` (for the caller's rewind). -/
def emitLoop (infoSize : Nat) : Nat → DirCtx → EmitSt → Nat → DirCtx × EmitSt × Bool × Nat
  | 0, ctx, st, rl => (ctx, st, false, rl)
  | fuel + 1, ctx, st, _ =>
    match fetchEntry ctx with
    | none => (⟨[], 0, false, 0, []⟩, st, true, 0)
    | some (ctx2, de) =>
      let rl := direntReclen de
      let ctx3 := { ctx2 with dirent_offset := ctx2.dirent_offset + rl }
      let st2 := populateEntry infoSize st de
      if 0 ≤ st2.out_buf_len then emitLoop infoSize fuel ctx3 st2 rl
      else (ctx3, st2, false, rl)

/-- Total wire bytes of a list of entries. -/
def sumNeo (infoSize : Nat) (l : List SmbDirent) : Nat :=
  (l.map (next_entry_offset infoSize)).sum

/-- The loop postcondition used by the enumeration proofs: some prefix of
the remaining entries is emitted with exact offset accounting, and the
cursor either reaches the end of the directory or is positioned (after the
rewind) exactly at the first entry that did not fit. -/
def LoopPost (infoSize : Nat) (ctx : DirCtx) (st : EmitSt)
    (R : DirCtx × EmitSt × Bool × Nat) : Prop :=
  ∃ k, k ≤ (remaining ctx).length
    ∧ R.2.1.emitted = st.emitted ++ (remaining ctx).take k
    ∧ R.2.1.data_count = st.data_count + sumNeo infoSize ((remaining ctx).take k)
    ∧ R.2.1.num_entry = st.num_entry + k
    ∧ R.2.1.last_entry_offset =
        (if k = 0 then st.last_entry_offset
         else st.data_count + sumNeo infoSize ((remaining ctx).take (k - 1)))
    ∧ (if R.2.2.1 = true then
        k = (remaining ctx).length ∧ remaining R.1 = [] ∧ ctxWF R.1
          ∧ 0 ≤ R.2.1.out_buf_len
       else
        R.2.1.out_buf_len = -1
          ∧ k < (remaining ctx).length
          ∧ R.2.2.2 = direntReclen ((remaining ctx).getD k default)
          ∧ R.2.2.2 ≤ R.1.dirent_offset
          ∧ ctxWF (rewindCtx R.1 R.2.2.2)
          ∧ remaining (rewindCtx R.1 R.2.2.2) = (remaining ctx).drop k
          ∧ ((next_entry_offset infoSize ((remaining ctx).getD k default) : Int)
              > st.out_buf_len - (sumNeo infoSize ((remaining ctx).take k) : Int)))

/-- The wire-visible outcome of one FIND_FIRST / FIND_NEXT call. -/
structure BatchResult where
  ctx : DirCtx
  endOfSearch : Bool
  lastNameOffset : Nat
  searchCount : Nat
  emitted : List SmbDirent
deriving DecidableEq

/-- One FIND_FIRST / FIND_NEXT call after the setup: run the loop, then —
exactly as both handlers do after it — rewind `dirent_offset` by the last
`reclen` and answer `EndofSearch = 0` with `LastNameOffset =
last_entry_offset` when `out_buf_len` went negative, or answer
`EndofSearch = 1` with `LastNameOffset = 0`. -/
def runBatch (infoSize : Nat) (outBufLen : Int) (ctx : DirCtx) : BatchResult :=
  let fuel := ctx.buffer.length + ctx.stream.length + 1
  let r := emitLoop infoSize fuel ctx ⟨outBufLen, 0, 0, 0, []⟩ 0
  if r.2.1.out_buf_len < 0 then
    ⟨rewindCtx r.1 r.2.2.2, false, r.2.1.last_entry_offset, r.2.1.num_entry, r.2.1.emitted⟩
  else
    ⟨r.1, true, 0, r.2.1.num_entry, r.2.1.emitted⟩

/-- The cursor `find_first` starts from: empty buffer, offset 0, the whole
directory still unread. -/
def initCtx (dir : List SmbDirent) : DirCtx := ⟨[], 0, false, 0, dir⟩

/-- FIND_FIRST followed by FIND_NEXTs with the same search handle until
`EndofSearch`, concatenating the emitted entries (fuel bounds the number of
round trips). -/
def runBatches (infoSize : Nat) (outBufLen : Int) : Nat → DirCtx → List SmbDirent
  | 0, _ => []
  | fuel + 1, ctx =>
    let r := runBatch infoSize outBufLen ctx
    if r.endOfSearch then r.emitted
    else r.emitted ++ runBatches infoSize outBufLen fuel r.ctx

/-- A one-character directory entry. -/
def dirA : SmbDirent := ⟨['a']⟩

/-- Another one-character directory entry. -/
def dirB : SmbDirent := ⟨['b']⟩

/-! # Theorems -/

/-! ## Share host / user validation lemmas -/

theorem chktkn_mem (s : String) (u : String) (h : u.toList ∈ strsepTokens s) :
    chktkn (some s) u = 1 := by
  have h2 : u.data ∈ strsepTokens s := h
  simp [chktkn, h2]

theorem chktkn_not_mem (s : String) (u : String) (h : u.toList ∉ strsepTokens s) :
    chktkn (some s) u = -ENOENT := by
  have h2 : u.data ∉ strsepTokens s := h
  simp [chktkn, h2]

theorem chktkn_cases (l : Option String) (u : String) :
    chktkn l u = 0 ∨ chktkn l u = 1 ∨ chktkn l u = -ENOENT := by
  cases l with
  | none => exact Or.inl rfl
  | some s =>
    by_cases h : u.toList ∈ strsepTokens s
    · exact Or.inr (Or.inl (chktkn_mem s u h))
    · exact Or.inr (Or.inr (chktkn_not_mem s u h))

/-- C1: the claim says that with an empty allow-hosts list, a non-empty
deny-hosts list, and a peer that is not in the deny list, the host check
allows the connection (returns 1).  The code does not: `chktkn` returns
`-ENOENT` for a peer absent from the deny list, and `validate_host`'s
`if (deny < 0) return -ENOMEM;` turns that into an `-ENOMEM` error, so the
peer is rejected.  This contradicts both `chktkn`'s own documentation
("Return: 1 if str2 is present in userslist, otherwise 0") and the comment
above the final `return 1` ("Default is always allowed"), so the code, not
the claim, is at fault.  Evaluated here at the failing input: allow-hosts
NULL, deny-hosts "192.168.0.5", peer "10.0.0.1". -/
theorem validate_host_empty_allow_unlisted_peer_enomem :
    validate_host none (some "192.168.0.5") "10.0.0.1" = -ENOMEM ∧
      (-ENOMEM : Int) ≠ 1 := by
  decide

/-- C8: the share user check with guest access disabled: a user in
`invalid_users` is denied with `-EACCES`; otherwise the final `can_write`
flag is the share's `writeable == 1` default, cleared by membership in
`read_list`, then set by membership in `write_list` (so membership in both
yields writable); and when `valid_users` is non-empty, a user not in it is
denied (negative return). -/
theorem validate_usr_user_check (share : ShareUsrConfig) (p u : String) (cw : Bool)
    (hpath : share.path = some p) (hguest : share.guest_ok = false) :
    ((∃ il, share.invalid_users = some il ∧ u.toList ∈ strsepTokens il) →
        validate_usr share u cw = (-EACCES, cw))
    ∧ (chktkn share.invalid_users u ≤ 0 →
        (validate_usr share u cw).2 =
          (if chktkn share.write_list u > 0 then true
           else if chktkn share.read_list u > 0 then false
           else decide (share.writeable = 1)))
    ∧ (∀ v, chktkn share.invalid_users u ≤ 0 → share.valid_users = some v →
        u.toList ∉ strsepTokens v → (validate_usr share u cw).1 < 0) := by
  have hne : share.path.isNone = false := by rw [hpath]; rfl
  refine ⟨?_, ?_, ?_⟩
  · rintro ⟨il, hil, hmem⟩
    have h1 : chktkn share.invalid_users u = 1 := hil ▸ chktkn_mem il u hmem
    unfold validate_usr
    rw [hne, hguest]
    simp only [Bool.false_eq_true, if_false, h1]
    norm_num [ENOMEM]
  · intro hle
    have hinv : chktkn share.invalid_users u = 0 ∨ chktkn share.invalid_users u = -ENOENT := by
      rcases chktkn_cases share.invalid_users u with h | h | h
      · exact Or.inl h
      · rw [h] at hle; omega
      · exact Or.inr h
    unfold validate_usr
    rw [hne, hguest]
    simp only [Bool.false_eq_true, if_false]
    rcases hinv with h | h <;>
      · rw [h]
        norm_num [ENOMEM, ENOENT]
        cases share.valid_users <;> rfl
  · intro v hle hval hmem
    have hv : chktkn (some v) u = -ENOENT := chktkn_not_mem v u hmem
    have hinv : chktkn share.invalid_users u = 0 ∨ chktkn share.invalid_users u = -ENOENT := by
      rcases chktkn_cases share.invalid_users u with h | h | h
      · exact Or.inl h
      · rw [h] at hle; omega
      · exact Or.inr h
    unfold validate_usr
    rw [hne, hguest, hval]
    simp only [Bool.false_eq_true, if_false]
    rcases hinv with h | h <;>
      · rw [h]
        norm_num [ENOMEM, ENOENT, hv]

/-- Witness for C8: for the concrete share `shareW` (guest off, user `bob` in
both the read and the write list, not in the invalid list), the user-check
theorem applies and gives `can_write = true` (write list wins). -/
theorem validate_usr_user_check_witness :
    (validate_usr shareW "bob" false).2 =
      (if chktkn shareW.write_list "bob" > 0 then true
       else if chktkn shareW.read_list "bob" > 0 then false
       else decide (shareW.writeable = 1)) :=
  (validate_usr_user_check shareW "/srv/share" "bob" false rfl rfl).2.1 (by decide)

/-! ## Security-descriptor codec lemmas -/

theorem cmpAuthLists_self (l : List Nat) : cmpAuthLists l l = none := by
  induction l with
  | nil => rfl
  | cons x xs ih => simp [cmpAuthLists, ih]

theorem compare_sids_self (x : CifsSid) : compare_sids x x = 0 := by
  unfold compare_sids
  rw [if_neg (by omega : ¬ x.revision ≠ x.revision)]
  simp [cmpAuthLists_self]

theorem copy_sid_wf (x : CifsSid) (h1 : x.authority.length = NUM_AUTHS)
    (h2 : x.sub_auth.length = x.num_subauth) : copy_sid_for_ace x = x := by
  unfold copy_sid_for_ace
  rw [List.take_of_length_le (by omega), List.take_of_length_le (by omega)]

theorem afm_allowed_snd (f m pb : Nat) :
    (access_flags_to_mode f AceType.ACCESS_ALLOWED m pb).2 = pb := by
  by_cases h : f &&& GENERIC_ALL ≠ 0 <;> simp [access_flags_to_mode, h]

theorem andNot_and_self (a b : Nat) : andNot a b &&& b = 0 := by
  apply Nat.eq_of_testBit_eq
  intro i
  simp [andNot, Nat.testBit_land, Nat.testBit_xor]

/-- Decoding the DACL built by `set_chmod_dacl` reduces to the sid-free
`decodeTriple` whenever the owner and group SIDs are well-formed and
pairwise distinct from each other and from the well-known everyone /
authenticated-users SIDs. -/
theorem parse_set_chmod_reduce (o g : CifsSid)
    (hwfO1 : o.authority.length = NUM_AUTHS) (hwfO2 : o.sub_auth.length = o.num_subauth)
    (hwfG1 : g.authority.length = NUM_AUTHS) (hwfG2 : g.sub_auth.length = g.num_subauth)
    (hog : compare_sids o g ≠ 0) (hgo : compare_sids g o ≠ 0)
    (hoe : compare_sids o sid_everyone ≠ 0) (hoa : compare_sids o sid_authusers ≠ 0)
    (hge : compare_sids g sid_everyone ≠ 0) (hga : compare_sids g sid_authusers ≠ 0)
    (heo : compare_sids sid_everyone o ≠ 0) (heg : compare_sids sid_everyone g ≠ 0)
    (m m0 : Nat) :
    parse_dacl (some (set_chmod_dacl o g m)) true o g m0 = decodeTriple m m0 := by
  have hco : copy_sid_for_ace o = o := copy_sid_wf o hwfO1 hwfO2
  have hcg : copy_sid_for_ace g = g := copy_sid_wf g hwfG1 hwfG2
  have hce : copy_sid_for_ace sid_everyone = sid_everyone := rfl
  have hea : compare_sids sid_everyone sid_authusers ≠ 0 := by decide
  unfold parse_dacl set_chmod_dacl fill_ace_for_sid
  simp only [hco, hcg, hce]
  norm_num
  unfold processAce
  simp only [compare_sids_self o, compare_sids_self g, compare_sids_self sid_everyone,
    if_pos rfl, if_neg hog, if_neg hgo, if_neg hoe, if_neg hoa, if_neg hge, if_neg hga,
    if_neg heo, if_neg heg, if_neg hea]
  unfold decodeTriple encodeFlags
  rfl

set_option maxRecDepth 4096 in
theorem decodeTriple_formula : ∀ m : Nat, m < 512 → decodeTriple m 0 = decodeExpected m := by
  decide

set_option maxRecDepth 4096 in
theorem decodeExpected_eq : ∀ m : Nat, m < 512 →
    (m >>> 6) &&& (m >>> 3) &&& m &&& 7 = m &&& 7 → decodeExpected m = m := by
  decide

/-- C5 counterexample: encoding mode `0o007` with `set_chmod_dacl` (owner
`sidO`, group `sidG`) and decoding with `parse_dacl` against the same SIDs
yields `0o777`, not `0o007`: the everyone-ACE rights are replicated into
the user and group triplets because `other_mask` is the full
`S_IRWXU|S_IRWXG|S_IRWXO`. -/
theorem set_chmod_dacl_roundtrip_counterexample :
    parse_dacl (some (set_chmod_dacl sidO sidG 7)) true sidO sidG 0 = 511
    ∧ (511 : Nat) ≠ 7 := by
  decide

/-- C5 (amended): for every mode `m < 512` and well-formed owner/group SIDs
distinct from each other and from the everyone / authenticated-users SIDs,
DACL encode→decode yields `decodeExpected m` — `m` with the other-triplet
rights also OR-ed into the user and group triplets; the round trip returns
exactly `m` precisely on modes whose other-triplet rights are already
present in both the user and the group triplet. -/
theorem set_chmod_dacl_roundtrip (o g : CifsSid)
    (hwfO1 : o.authority.length = NUM_AUTHS) (hwfO2 : o.sub_auth.length = o.num_subauth)
    (hwfG1 : g.authority.length = NUM_AUTHS) (hwfG2 : g.sub_auth.length = g.num_subauth)
    (hog : compare_sids o g ≠ 0) (hgo : compare_sids g o ≠ 0)
    (hoe : compare_sids o sid_everyone ≠ 0) (hoa : compare_sids o sid_authusers ≠ 0)
    (hge : compare_sids g sid_everyone ≠ 0) (hga : compare_sids g sid_authusers ≠ 0)
    (heo : compare_sids sid_everyone o ≠ 0) (heg : compare_sids sid_everyone g ≠ 0)
    (m : Nat) (hm : m < 512) :
    parse_dacl (some (set_chmod_dacl o g m)) true o g 0 = decodeExpected m
    ∧ ((m >>> 6) &&& (m >>> 3) &&& m &&& 7 = m &&& 7 →
        parse_dacl (some (set_chmod_dacl o g m)) true o g 0 = m) := by
  have h1 := parse_set_chmod_reduce o g hwfO1 hwfO2 hwfG1 hwfG2 hog hgo hoe hoa hge hga
    heo heg m 0
  have h2 := decodeTriple_formula m hm
  exact ⟨h1.trans h2, fun hc => (h1.trans h2).trans (decodeExpected_eq m hm hc)⟩

/-- Witness for the amended C5 theorem at mode `0o640` and the concrete
SIDs `sidO`/`sidG`. -/
theorem set_chmod_dacl_roundtrip_witness :
    parse_dacl (some (set_chmod_dacl sidO sidG 416)) true sidO sidG 0 = decodeExpected 416 :=
  (set_chmod_dacl_roundtrip sidO sidG rfl rfl rfl rfl (by decide) (by decide) (by decide)
    (by decide) (by decide) (by decide) (by decide) (by decide) 416 (by decide)).1

/-- C4 counterexample: for a descriptor whose `dacloffset` is 0 (no DACL)
`parse_sec_desc` leaves `cf_mode` unchanged — starting from mode 0 the
result has NO rwx bits, while the claim says all rwx bits are set.  (The
all-bits branch lives in `parse_dacl`'s NULL case, which `parse_sec_desc`
never reaches: it calls `parse_dacl` only when `dacloffset != 0`, and then
the pointer is never NULL.) -/
theorem parse_sec_desc_absent_dacl_counterexample :
    (parse_sec_desc ntsdNoDacl true 0).2 = 0
    ∧ (parse_sec_desc ntsdNoDacl true 0).2 &&& S_IRWXUGO ≠ S_IRWXUGO := by
  decide

/-- C4 (amended): a DACL present with zero ACEs clears every rwx bit of the
mode (the permission part of the result is 0); a descriptor carrying no
DACL at all (`dacloffset = 0`) leaves the mode exactly as it was; and the
full-permission behaviour (`cf_mode |= S_IRWXUGO`) exists only in
`parse_dacl`'s NULL-DACL branch, which `parse_sec_desc` never invokes. -/
theorem parse_sec_desc_dacl_modes (ntsd : CifsNtsd) (m : Nat) :
    (ntsd.dacloffset = 0 → parse_sec_desc ntsd true m = (0, m))
    ∧ (ntsd.dacloffset ≠ 0 → ntsd.dacl.num_aces = 0 →
        (parse_sec_desc ntsd true m).2 = andNot m S_IRWXUGO
        ∧ (parse_sec_desc ntsd true m).2 &&& S_IRWXUGO = 0)
    ∧ (∀ o g, parse_dacl none true o g m = m ||| S_IRWXUGO) := by
  refine ⟨?_, ?_, ?_⟩
  · intro h0
    unfold parse_sec_desc
    rw [if_neg (by omega : ¬ ntsd.dacloffset ≠ 0)]
  · intro hne hz
    have heq : (parse_sec_desc ntsd true m).2 = andNot m S_IRWXUGO := by
      unfold parse_sec_desc parse_dacl
      rw [if_pos hne]
      simp [hz]
    exact ⟨heq, by rw [heq]; exact andNot_and_self m S_IRWXUGO⟩
  · intro o g
    rfl

/-- Witness for the amended C4 theorem: the no-DACL descriptor leaves mode
5 unchanged. -/
theorem parse_sec_desc_dacl_modes_witness :
    parse_sec_desc ntsdNoDacl true 5 = (0, 5) :=
  (parse_sec_desc_dacl_modes ntsdNoDacl 5).1 rfl

/-! ## FID handle-table lemmas -/

theorem fid_getD_set (l : List (Option CifsdFile)) (i : Nat) (h : i < l.length)
    (a : Option CifsdFile) : (l.set i a).getD i none = a := by
  rw [List.getD_eq_getElem?_getD, List.getElem?_set_self (by simpa using h)]
  rfl

theorem fid_getD_set_none (l : List (Option CifsdFile)) (i : Nat) :
    (l.set i none).getD i none = none := by
  rw [List.getD_eq_getElem?_getD]
  by_cases h : i < l.length
  · rw [List.getElem?_set_self (by simpa using h)]
    rfl
  · rw [List.getElem?_eq_none (by simp; omega)]
    rfl

/-- C6: handle-table lookup semantics.  For a well-formed table (`fileid`
array of length `max_fids ≥ 1`): a bound id in `[CIFSD_START_FID, max_fids)`
whose file is not `FP_FREEING` is returned with its refcount incremented; an
id outside the range returns null; a file in `FP_FREEING` returns null; after
`delete_id_from_fidtable` (unbind) the lookup returns null; and an id freshly
bound by `insert_id_in_fidtable` is looked up as that payload (state
`FP_NEW`, refcount bumped from 0 to 1). -/
theorem get_id_from_fidtable_spec (ftab : Fidtable) (id : Nat)
    (hmax : 1 ≤ ftab.max_fids) (hlen : ftab.fileid.length = ftab.max_fids) :
    (∀ fp, CIFSD_START_FID ≤ id → id < ftab.max_fids →
        ftab.fileid.getD id none = some fp → fp.f_state ≠ FpState.FP_FREEING →
        get_id_from_fidtable ftab id =
          (some (fp_inc fp), fidtable_with_slot ftab id (some (fp_inc fp))))
    ∧ ((id < CIFSD_START_FID ∨ ftab.max_fids ≤ id) →
        get_id_from_fidtable ftab id = (none, ftab))
    ∧ (∀ fp, ftab.fileid.getD id none = some fp → fp.f_state = FpState.FP_FREEING →
        get_id_from_fidtable ftab id = (none, ftab))
    ∧ (get_id_from_fidtable (delete_id_from_fidtable ftab id) id =
        (none, delete_id_from_fidtable ftab id))
    ∧ (∀ tid, CIFSD_START_FID ≤ id → id < ftab.max_fids →
        (insert_id_in_fidtable ftab id tid).1 = some ⟨FpState.FP_NEW, 0, tid⟩ ∧
        get_id_from_fidtable (insert_id_in_fidtable ftab id tid).2 id =
          (some ⟨FpState.FP_NEW, 1, tid⟩,
           fidtable_with_slot (fidtable_with_slot ftab id (some ⟨FpState.FP_NEW, 0, tid⟩)) id
             (some ⟨FpState.FP_NEW, 1, tid⟩))) := by
  have hrange : ∀ i : Nat, CIFSD_START_FID ≤ i → i < ftab.max_fids →
      ¬(i < CIFSD_START_FID ∨ i > ftab.max_fids - 1) := by
    intro i h1 h2
    push_neg
    constructor
    · omega
    · omega
  refine ⟨?_, ?_, ?_, ?_, ?_⟩
  · intro fp h1 h2 hslot hfree
    unfold get_id_from_fidtable
    rw [if_neg (hrange id h1 h2), hslot]
    simp only [if_neg hfree]
    rfl
  · intro h
    unfold get_id_from_fidtable
    rw [if_pos]
    rcases h with h | h
    · exact Or.inl h
    · right
      unfold CIFSD_START_FID at *
      omega
  · intro fp hslot hfree
    unfold get_id_from_fidtable
    by_cases hr : id < CIFSD_START_FID ∨ id > ftab.max_fids - 1
    · rw [if_pos hr]
    · rw [if_neg hr, hslot]
      simp [hfree]
  · unfold get_id_from_fidtable delete_id_from_fidtable
    by_cases hr : id < CIFSD_START_FID ∨ id > ftab.max_fids - 1
    · rw [if_pos hr]
    · rw [if_neg hr]
      rw [fid_getD_set_none]
  · intro tid h1 h2
    have hl : id < ftab.fileid.length := by omega
    constructor
    · unfold insert_id_in_fidtable
      exact fid_getD_set ftab.fileid id hl _
    · unfold insert_id_in_fidtable get_id_from_fidtable
      rw [if_neg (hrange id h1 h2)]
      rw [fid_getD_set ftab.fileid id hl]
      simp only [if_neg (by simp : ¬(FpState.FP_NEW = FpState.FP_FREEING))]
      rfl

/-- Witness for C6 at the concrete 64-entry table `ftabTop` and id 5: after
unbinding id 5 the lookup returns null. -/
theorem get_id_from_fidtable_spec_witness :
    get_id_from_fidtable (delete_id_from_fidtable ftabTop 5) 5 =
      (none, delete_id_from_fidtable ftabTop 5) :=
  (get_id_from_fidtable_spec ftabTop 5 (by decide) (by decide)).2.2.2.1

/-- C10: the fid allocator can return the topmost id `max_fids - 1` — here,
63 in a 64-entry table whose other bits are taken — but `cifsd_close_id`
rejects exactly that id (`id >= ftab->max_fids - 1` is off by one against
the allocator and against `get_id_from_fidtable`, which both treat
`max_fids - 1` as valid), returning `-EINVAL` and leaving the bitmap bit
set, so the id leaks. -/
theorem cifsd_close_id_rejects_topmost_id :
    (cifsd_get_unused_id ftabTop).1 = 63
    ∧ 63 = ftabTop.max_fids - 1
    ∧ (cifsd_close_id (cifsd_get_unused_id ftabTop).2 63).1 = -EINVAL
    ∧ (cifsd_close_id (cifsd_get_unused_id ftabTop).2 63).2.bitmap.getD 63 false = true
    ∧ (¬(63 < CIFSD_START_FID ∨ 63 > ftabTop.max_fids - 1))
    ∧ (cifsd_close_id (cifsd_get_unused_id ftabTop).2 62).1 = 0 := by
  decide

/-! ## Byte-range lock conflict on READ_ANDX -/

/-- C2 counterexample: the exact scenario of the claim — an exclusive lock
`[0, 9]` held through `struct file` 1, a `READ offset=5 count=2` through a
different file 2 on the same inode.  The read fails (`-EAGAIN` from the lock
check), but `smb_read_andx` stamps `NT_STATUS_INVALID_HANDLE`, not the
claimed `FILE_LOCK_CONFLICT` (no handler in the source ever produces a lock
conflict status). -/
theorem smb_read_andx_lock_status_counterexample :
    smb_read_andx [⟨0, 9, LockType.WR, 1⟩] (some ⟨false, 2, none, List.replicate 20 7⟩) 5 2 =
      (-EAGAIN, NtStatus.INVALID_HANDLE)
    ∧ NtStatus.INVALID_HANDLE ≠ NtStatus.FILE_LOCK_CONFLICT := by
  decide

/-- Any conflicting lock in the inode's list makes `check_lock_range`
return 1 (the scan stops at the first conflict, and every intersecting lock
either conflicts or lets the scan continue). -/
theorem check_lock_range_conflict (filp : Nat) (s e : Int) (ty : RwType)
    (locks : List FileLock) (fl : FileLock) (hmem : fl ∈ locks)
    (hov1 : fl.fl_end ≥ s) (hov2 : e ≥ fl.fl_start)
    (hcf : (fl.fl_type = LockType.RD ∧ ty = RwType.WRITE) ∨
           (fl.fl_type = LockType.WR ∧ fl.fl_file ≠ filp)) :
    check_lock_range filp s e ty locks = 1 := by
  induction locks with
  | nil => cases hmem
  | cons hd rest ih =>
    unfold check_lock_range
    rcases List.mem_cons.mp hmem with heq | hrest
    · subst heq
      rw [if_pos ⟨hov1, hov2⟩]
      rcases hcf with ⟨h1, h2⟩ | ⟨h1, h2⟩
      · rw [h1, h2]
        simp
      · rw [h1]
        rw [if_pos h2]
    · by_cases hov : hd.fl_end ≥ s ∧ e ≥ hd.fl_start
      · rw [if_pos hov]
        cases hty : hd.fl_type with
        | RD =>
          by_cases hw : ty = RwType.WRITE
          · rw [if_pos hw]
          · rw [if_neg hw]
            exact ih hrest
        | WR =>
          by_cases hf : hd.fl_file ≠ filp
          · rw [if_pos hf]
          · rw [if_neg hf]
            exact ih hrest
      · rw [if_neg hov]
        exact ih hrest

/-- C2 (amended): a READ_ANDX on a regular (non-stream, non-pipe) file whose
byte range `[pos, pos+count)` intersects a POSIX write lock held through a
different `struct file` fails — `smb_vfs_read` returns `-EAGAIN` — and the
response status stamped by `smb_read_andx` is `NT_STATUS_INVALID_HANDLE`
(the handler's single error path), not `FILE_LOCK_CONFLICT`. -/
theorem smb_read_andx_lock_conflict (locks : List FileLock) (fp : ReadFp)
    (pos : Int) (count0 : Nat)
    (hstream : fp.is_stream = false) (hcount : count0 ≤ CIFS_DEFAULT_IOSIZE)
    (fl : FileLock) (hmem : fl ∈ locks)
    (hty : fl.fl_type = LockType.WR) (howner : fl.fl_file ≠ fp.filp)
    (hov1 : fl.fl_end ≥ pos) (hov2 : pos + count0 - 1 ≥ fl.fl_start) :
    smb_read_andx locks (some fp) pos count0 = (-EAGAIN, NtStatus.INVALID_HANDLE) := by
  have hcl : check_lock_range fp.filp pos (pos + count0 - 1) RwType.READ locks = 1 :=
    check_lock_range_conflict fp.filp pos (pos + count0 - 1) RwType.READ locks fl hmem
      hov1 hov2 (Or.inr ⟨hty, howner⟩)
  have hcc : ¬ count0 > CIFS_DEFAULT_IOSIZE := by omega
  unfold smb_read_andx smb_vfs_read
  rw [if_neg hcc]
  simp only [hstream, Bool.false_eq_true, if_false, hcl]
  norm_num [EAGAIN]

/-- Witness for the amended C2 theorem: the concrete scenario of the spec
(lock `[0,9]` by file 1, read `offset=5 count=2` through file 2). -/
theorem smb_read_andx_lock_conflict_witness :
    smb_read_andx [⟨0, 9, LockType.WR, 1⟩]
        (some ⟨false, 2, none, List.replicate 20 7⟩) 5 2 =
      (-EAGAIN, NtStatus.INVALID_HANDLE) :=
  smb_read_andx_lock_conflict _ _ 5 2 rfl (by decide) ⟨0, 9, LockType.WR, 1⟩
    (by decide) rfl (by decide) (by decide) (by decide)

/-! ## VFS stream-write truncation -/

/-- C3: the claim says a stream write past the xattr cap succeeds with the
stored value truncated to the cap, storing the first `cap - pos` bytes of the
caller's data.  The code does store a value of exactly the cap's size and
does not reject the write, but it sets `count = (*pos + count) -
XATTR_SIZE_MAX` — the overflow amount instead of the remaining capacity
`XATTR_SIZE_MAX - *pos` — so for a write of `cap + 10` ones at offset 0 over
an empty stream it copies only the first 10 bytes (padding the rest with
zeroes) and reports 10 bytes written.  The claim describes the obvious
intent (`*written` should never exceed the requested count's useful part and
a truncating write should fill up to the cap), so the code is at fault. -/
theorem smb_vfs_write_stream_truncation_bug :
    smb_vfs_write_stream (some []) (List.replicate (XATTR_SIZE_MAX + 10) 1) 0
        (XATTR_SIZE_MAX + 10) =
      ⟨0, List.replicate 10 1 ++ List.replicate (XATTR_SIZE_MAX - 10) 0, 10⟩
    ∧ (List.replicate 10 1 ++ List.replicate (XATTR_SIZE_MAX - 10) 0 : List Nat) ≠
        (List.replicate (XATTR_SIZE_MAX + 10) 1).take (XATTR_SIZE_MAX - 0) := by
  constructor
  · unfold smb_vfs_write_stream listWriteAt
    simp only [XATTR_SIZE_MAX]
    norm_num
  · intro h
    rw [List.take_replicate] at h
    norm_num [XATTR_SIZE_MAX] at h
    have h2 := congrArg (List.drop 10) h
    rw [List.drop_append_of_le_length (by simp)] at h2
    rw [List.drop_replicate, List.drop_replicate] at h2
    norm_num at h2

/-! ## 8.3 short-name lemmas -/

theorem lastIdxOf_zero (c : Char) (cs : List Char) (h : lastIdxOf c cs = some 0) :
    cs.head? = some c := by
  cases cs with
  | nil => simp [lastIdxOf] at h
  | cons x xs =>
    unfold lastIdxOf at h
    cases hx : lastIdxOf c xs with
    | some i => rw [hx] at h; simp at h
    | none =>
      rw [hx] at h
      by_cases hc : x = c
      · simp [hc]
      · rw [if_neg hc] at h; simp at h

/-- C9 counterexample: for `"AAAAAA.TXT"` the code produces `AAAAA~GK.TXT`
(sum of bytes 692, base-42 digits 16 and 20 over the first 42 alphabet
characters), while the claim's base-43 encoding of `692 mod 43²` gives
`AAAAA~G4.TXT` — the two differ.  Moreover, for a name starting with a dot
the code generates no short name at all (returns length 0), whereas the claim
says such a name gets a `___` extension short name. -/
theorem smb_get_shortname_counterexample :
    (smb_get_shortname "AAAAAA.TXT").2 = "AAAAA~GK.TXT".toList
    ∧ claim_shortname "AAAAAA.TXT" = "AAAAA~G4.TXT".toList
    ∧ (smb_get_shortname "AAAAAA.TXT").2 ≠ claim_shortname "AAAAAA.TXT"
    ∧ smb_get_shortname ".config" = (0, [])
    ∧ claim_shortname ".config" = "CONFI~FV.___".toList := by
  decide

/-- C9 (amended): for every long name that does not start with `'.'`, the
generated 8.3 short name is the upper-cased first 5 non-dot characters, then
`'~'`, then the two base-42 digits of `sum(name bytes) mod 42²` over the
first 42 characters of the alphabet `0-9A-Z_-!@#$%` (the final `'%'` is never
used), then `'.'`, then the upper-cased first three characters after the last
dot (nothing when the name has no dot); the returned length is twice the
character count, and the mangling is deterministic in the long name (the
embedding is a pure function).  Names that do start with `'.'` produce no
short name at all. -/
theorem smb_get_shortname_structure (longname : String)
    (hnd : longname.toList.head? ≠ some '.') :
    (smb_get_shortname longname).2 =
      ((longname.toList.filter (fun c => c ≠ '.')).take 5).map Char.toUpper
        ++ ['~', basechars.getD (nameByteSum longname % 1764 / 42) '0',
            basechars.getD (nameByteSum longname % 42) '0', '.']
        ++ (match lastIdxOf '.' longname.toList with
            | some i =>
              (((longname.toList.drop (i + 1)).filter (fun c => c ≠ '.')).take 3).map Char.toUpper
            | none => [])
    ∧ (smb_get_shortname longname).1 = 2 * (smb_get_shortname longname).2.length
    ∧ basechars.getD (nameByteSum longname % 1764 / 42) '0' ∈ basechars.take 42
    ∧ basechars.getD (nameByteSum longname % 42) '0' ∈ basechars.take 42 := by
  have hdd : longname ≠ ".." := by
    intro he
    rw [he] at hnd
    exact hnd rfl
  have hcond : ¬(longname.toList.head? = some '.' ∨ longname = "..") := by
    rintro (h | h)
    · exact hnd h
    · exact hdd h
  have hlt : nameByteSum longname % 1764 < 1764 := Nat.mod_lt _ (by norm_num)
  have hdiv : nameByteSum longname % 1764 / 42 < 42 := by omega
  have h42 : nameByteSum longname % 1764 % 42 = nameByteSum longname % 42 :=
    Nat.mod_mod_of_dvd _ (by norm_num)
  refine ⟨?_, ?_, ?_, ?_⟩
  · unfold smb_get_shortname
    rw [if_neg hcond]
    simp only [mangle, MANGLE_BASE]
    rw [Nat.mod_eq_of_lt hdiv, h42]
    cases hld : lastIdxOf '.' longname.toList with
    | none => simp
    | some i =>
      cases i with
      | zero => exact absurd (lastIdxOf_zero _ _ hld) hnd
      | succ j => simp
  · unfold smb_get_shortname
    rw [if_neg hcond]
  · have : (42 : Nat) ≤ basechars.length := by decide
    rw [List.getD_eq_getElem _ _ (by omega)]
    rw [List.mem_take_iff_getElem]
    exact ⟨_, by omega, rfl⟩
  · have h2 : nameByteSum longname % 42 < 42 := Nat.mod_lt _ (by norm_num)
    have : (42 : Nat) ≤ basechars.length := by decide
    rw [List.getD_eq_getElem _ _ (by omega)]
    rw [List.mem_take_iff_getElem]
    exact ⟨_, by omega, rfl⟩

/-- Witness for the amended C9 theorem at the concrete name `"README.MD"`. -/
theorem smb_get_shortname_structure_witness :
    (smb_get_shortname "README.MD").1 = 2 * (smb_get_shortname "README.MD").2.length :=
  (smb_get_shortname_structure "README.MD" (by decide)).2.1

/-! ## Directory-enumeration lemmas and the FIND_FIRST / FIND_NEXT claims -/

theorem direntReclen_pos (d : SmbDirent) : 24 ≤ direntReclen d := by
  unfold direntReclen ALIGN8 sizeof_smb_dirent
  omega

theorem sumRec_cons (d : SmbDirent) (l : List SmbDirent) :
    sumRec (d :: l) = direntReclen d + sumRec l := by
  simp [sumRec]

theorem sumRec_append (a b : List SmbDirent) :
    sumRec (a ++ b) = sumRec a + sumRec b := by
  simp [sumRec]

theorem fillPage_spec (l : List SmbDirent) (u : Nat) :
    (fillPage l u).1 ++ (fillPage l u).2.2.2 = l
    ∧ (fillPage l u).2.1 = u + sumRec (fillPage l u).1 := by
  induction l generalizing u with
  | nil => simp [fillPage, sumRec]
  | cons d ds ih =>
    unfold fillPage
    by_cases h : u + direntReclen d > PAGE_SIZE
    · rw [if_pos h]
      simp [sumRec]
    · rw [if_neg h]
      have := ih (u + direntReclen d)
      constructor
      · simpa using this.1
      · simp only [sumRec_cons]
        omega

theorem direntsFrom_zero (l : List SmbDirent) : direntsFrom l 0 = l := by
  cases l <;> rfl

theorem direntsFrom_append (pre l : List SmbDirent) :
    direntsFrom (pre ++ l) (sumRec pre) = l := by
  induction pre with
  | nil => simpa [sumRec] using direntsFrom_zero l
  | cons d pre ih =>
    rw [sumRec_cons]
    have hpos := direntReclen_pos d
    have hne : direntReclen d + sumRec pre ≠ 0 := by omega
    obtain ⟨m, hm⟩ : ∃ m, direntReclen d + sumRec pre = m + 1 := by
      refine ⟨direntReclen d + sumRec pre - 1, ?_⟩
      omega
    rw [hm]
    show direntsFrom (d :: (pre ++ l)) (m + 1) = l
    unfold direntsFrom
    rw [if_neg (by omega)]
    have : m + 1 - direntReclen d = sumRec pre := by omega
    rw [this, ih]

theorem direntAt_append (pre : List SmbDirent) (d : SmbDirent) (suf : List SmbDirent) :
    direntAt (pre ++ d :: suf) (sumRec pre) = some d := by
  induction pre with
  | nil =>
    show direntAt (d :: suf) (sumRec []) = some d
    have : sumRec ([] : List SmbDirent) = 0 := by simp [sumRec]
    rw [this]
    unfold direntAt
    simp
  | cons e pre ih =>
    rw [sumRec_cons]
    have hpos := direntReclen_pos e
    show direntAt (e :: (pre ++ d :: suf)) (direntReclen e + sumRec pre) = some d
    unfold direntAt
    rw [if_neg (by omega), if_neg (by omega)]
    have : direntReclen e + sumRec pre - direntReclen e = sumRec pre := by omega
    rw [this, ih]

theorem fetchEntry_empty (ctx : DirCtx) (hwf : ctxWF ctx)
    (hrem : remaining ctx = []) : fetchEntry ctx = none := by
  obtain ⟨⟨pre, suf, hbuf, hoff⟩, hused⟩ := hwf
  have hsuf : suf = [] ∧ ctx.stream = [] := by
    have h1 : direntsFrom ctx.buffer ctx.dirent_offset = suf := by
      rw [hbuf, hoff]
      exact direntsFrom_append pre suf
    unfold remaining at hrem
    rw [h1] at hrem
    exact ⟨List.append_eq_nil.mp hrem |>.1, List.append_eq_nil.mp hrem |>.2⟩
  unfold fetchEntry
  rw [if_pos]
  · rw [hsuf.2]
    rfl
  · rw [hused, hoff, hbuf, hsuf.1]
    simp

theorem fillPage_head (d : SmbDirent) (ds : List SmbDirent) (u : Nat)
    (h : ¬ u + direntReclen d > PAGE_SIZE) :
    fillPage (d :: ds) u =
      ((d :: (fillPage ds (u + direntReclen d)).1, (fillPage ds (u + direntReclen d)).2.1,
        (fillPage ds (u + direntReclen d)).2.2.1, (fillPage ds (u + direntReclen d)).2.2.2)) := by
  conv_lhs => rw [fillPage]
  rw [if_neg h]

theorem remaining_eq_suf (ctx : DirCtx) (pre suf : List SmbDirent)
    (hbuf : ctx.buffer = pre ++ suf) (hoff : ctx.dirent_offset = sumRec pre) :
    remaining ctx = suf ++ ctx.stream := by
  unfold remaining
  rw [hbuf, hoff, direntsFrom_append]

theorem fetchEntry_cons (ctx : DirCtx) (hwf : ctxWF ctx)
    (hbound : ∀ d ∈ remaining ctx, direntReclen d ≤ PAGE_SIZE)
    (d : SmbDirent) (rest : List SmbDirent) (hrem : remaining ctx = d :: rest) :
    ∃ ctx2 : DirCtx, fetchEntry ctx = some (ctx2, d)
      ∧ ctxWF ctx2 ∧ remaining ctx2 = d :: rest
      ∧ ctxWF { ctx2 with dirent_offset := ctx2.dirent_offset + direntReclen d }
      ∧ remaining { ctx2 with dirent_offset := ctx2.dirent_offset + direntReclen d } = rest := by
  obtain ⟨⟨pre, suf, hbuf, hoff⟩, hused⟩ := hwf
  have hremsuf : remaining ctx = suf ++ ctx.stream := remaining_eq_suf ctx pre suf hbuf hoff
  cases suf with
  | nil =>
    -- buffer consumed; refill from the stream
    have hstream : ctx.stream = d :: rest := by
      rw [hremsuf] at hrem
      simpa using hrem
    have hge : ctx.dirent_offset ≥ ctx.used := by
      rw [hused, hoff, hbuf]
      simp
    have hfill := fillPage_spec ctx.stream 0
    set r := fillPage ctx.stream 0 with hr
    -- the first entry fits an empty page, so the chunk is nonempty
    have hdbound : direntReclen d ≤ PAGE_SIZE := by
      apply hbound
      rw [hrem]
      exact List.mem_cons_self d rest
    have htl : r.1 = d :: (fillPage rest (0 + direntReclen d)).1 := by
      rw [hr, hstream, fillPage_head d rest 0 (by omega)]
    set tl := (fillPage rest (0 + direntReclen d)).1 with htldef
    have husednz : r.2.1 ≠ 0 := by
      have := hfill.2
      rw [htl] at this
      rw [sumRec_cons] at this
      have := direntReclen_pos d
      omega
    refine ⟨⟨r.1, r.2.1, r.2.2.1, 0, r.2.2.2⟩, ?_, ?_, ?_, ?_, ?_⟩
    · unfold fetchEntry
      rw [if_pos hge, ← hr]
      rw [if_neg husednz]
      rw [htl]
    · exact ⟨⟨[], r.1, by simp, by simp [sumRec]⟩, hfill.2.symm ▸ by simp⟩
    · show direntsFrom r.1 0 ++ r.2.2.2 = d :: rest
      rw [direntsFrom_zero]
      rw [hfill.1, hstream]
    · exact ⟨⟨[d], tl, by simpa using htl, by simp [sumRec]⟩, by simpa using hfill.2⟩
    · show direntsFrom r.1 (0 + direntReclen d) ++ r.2.2.2 = rest
      rw [htl]
      have : (0 + direntReclen d) = sumRec [d] := by simp [sumRec]
      rw [this]
      have : d :: tl = [d] ++ tl := rfl
      rw [this, direntsFrom_append]
      have halmost := hfill.1
      rw [htl, hstream] at halmost
      simpa using halmost
  | cons e suf2 =>
    -- next record is still in the buffer
    have hd : e = d ∧ suf2 ++ ctx.stream = rest := by
      rw [hremsuf] at hrem
      simp at hrem
      exact ⟨hrem.1, hrem.2⟩
    obtain ⟨rfl, hrest⟩ := hd
    have hlt : ctx.dirent_offset < ctx.used := by
      rw [hused, hoff, hbuf, sumRec_append, sumRec_cons]
      have := direntReclen_pos e
      omega
    refine ⟨ctx, ?_, ?_, ?_, ?_, ?_⟩
    · unfold fetchEntry
      rw [if_neg (by omega)]
      have : direntAt ctx.buffer ctx.dirent_offset = some e := by
        rw [hbuf, hoff]
        exact direntAt_append pre e suf2
      rw [this]
    · exact ⟨⟨pre, e :: suf2, hbuf, hoff⟩, hused⟩
    · rw [hremsuf]
      simp only [List.cons_append]
      rw [hrest]
    · refine ⟨⟨pre ++ [e], suf2, by simpa using hbuf, ?_⟩, hused⟩
      rw [sumRec_append, hoff]
      simp [sumRec]
    · show direntsFrom ctx.buffer (ctx.dirent_offset + direntReclen e) ++ ctx.stream = rest
      rw [hbuf, hoff]
      have : sumRec pre + direntReclen e = sumRec (pre ++ [e]) := by
        rw [sumRec_append]
        simp [sumRec]
      rw [this]
      have hb : pre ++ e :: suf2 = (pre ++ [e]) ++ suf2 := by simp
      rw [hb, direntsFrom_append]
      exact hrest

theorem emitLoop_spec (infoSize : Nat) :
    ∀ fuel ctx (st : EmitSt) rl0, ctxWF ctx →
    (∀ d ∈ remaining ctx, direntReclen d ≤ PAGE_SIZE) →
    0 ≤ st.out_buf_len →
    (remaining ctx).length + 1 ≤ fuel →
    LoopPost infoSize ctx st (emitLoop infoSize fuel ctx st rl0) := by
  intro fuel
  induction fuel with
  | zero =>
    intro ctx st rl0 _ _ _ hf
    omega
  | succ fuel ih =>
    intro ctx st rl0 hwf hbound hobl hf
    cases hrem : remaining ctx with
    | nil =>
      have hfetch := fetchEntry_empty ctx hwf hrem
      rw [emitLoop, hfetch]
      refine ⟨0, by simp [hrem], by simp, by simp [sumNeo], by simp, by simp, ?_⟩
      simp only [if_pos rfl]
      refine ⟨by simp [hrem], ?_, ?_, hobl⟩
      · show direntsFrom [] 0 ++ [] = []
        rfl
      · exact ⟨⟨[], [], rfl, rfl⟩, rfl⟩
    | cons d rest =>
      obtain ⟨ctx2, hfetch, hwf2, hrem2, hwf3, hrem3⟩ :=
        fetchEntry_cons ctx hwf hbound d rest hrem
      rw [emitLoop, hfetch]
      dsimp only
      set neo := next_entry_offset infoSize d with hneo
      by_cases hfit : (neo : Int) > st.out_buf_len
      · -- entry does not fit: stop, k = 0
        have hst2 : populateEntry infoSize st d = { st with out_buf_len := -1 } := by
          unfold populateEntry
          rw [if_pos hfit]
        rw [hst2]
        rw [if_neg (by norm_num)]
        refine ⟨0, by simp, by simp, by simp [sumNeo], by simp, by simp, ?_⟩
        simp only [Bool.false_eq_true, if_false]
        have harith : ctx2.dirent_offset + direntReclen d - direntReclen d
            = ctx2.dirent_offset := by omega
        have hrew : rewindCtx
            { ctx2 with dirent_offset := ctx2.dirent_offset + direntReclen d }
            (direntReclen d) = ctx2 := by
          simp [rewindCtx, harith]
        refine ⟨by trivial, by simp [hrem], by simp [hrem], by simp, ?_, ?_, ?_⟩
        · rw [hrew]
          exact hwf2
        · rw [hrew, hrem2, hrem]
          simp
        · simp only [hrem, List.getD, List.take, sumNeo]
          simpa using hfit
      · -- entry fits: recurse
        have hst2 : populateEntry infoSize st d =
            ⟨st.out_buf_len - neo, st.data_count + neo, st.data_count,
             st.num_entry + 1, st.emitted ++ [d]⟩ := by
          unfold populateEntry
          rw [if_neg hfit]
        rw [hst2]
        rw [if_pos (by simp; omega)]
        have hbound3 : ∀ e ∈ remaining { ctx2 with
            dirent_offset := ctx2.dirent_offset + direntReclen d },
            direntReclen e ≤ PAGE_SIZE := by
          intro e he
          apply hbound
          rw [hrem]
          rw [hrem3] at he
          exact List.mem_cons_of_mem d he
        have hf3 : (remaining { ctx2 with
            dirent_offset := ctx2.dirent_offset + direntReclen d }).length + 1 ≤ fuel := by
          rw [hrem3]
          rw [hrem] at hf
          simpa using hf
        have hpost := ih { ctx2 with dirent_offset := ctx2.dirent_offset + direntReclen d }
          ⟨st.out_buf_len - neo, st.data_count + neo, st.data_count,
           st.num_entry + 1, st.emitted ++ [d]⟩ (direntReclen d) hwf3 hbound3
          (by simp; omega) hf3
        obtain ⟨k, hk, hemit, hdata, hnum, hlast, hflag⟩ := hpost
        rw [hrem3] at hk hemit hdata hlast hflag
        refine ⟨k + 1, ?_, ?_, ?_, ?_, ?_, ?_⟩
        · rw [hrem]
          simpa using hk
        · rw [hrem, hemit]
          simp
        · rw [hrem, hdata]
          simp [sumNeo]
          omega
        · rw [hnum]
          dsimp only
          omega
        · rw [hrem, hlast]
          cases k with
          | zero => simp [sumNeo]
          | succ k2 =>
            simp only [Nat.succ_ne_zero, if_false, Nat.add_sub_cancel, List.take, sumNeo]
            simp [sumNeo]
            omega
        · cases hended : (emitLoop infoSize fuel
              { ctx2 with dirent_offset := ctx2.dirent_offset + direntReclen d }
              ⟨st.out_buf_len - neo, st.data_count + neo, st.data_count,
               st.num_entry + 1, st.emitted ++ [d]⟩ (direntReclen d)).2.2.1 with
          | true =>
            rw [hended] at hflag
            simp only [if_pos rfl] at hflag ⊢
            obtain ⟨hk2, hrema, hwfa, hobla⟩ := hflag
            refine ⟨?_, hrema, hwfa, hobla⟩
            rw [hrem]
            simp [hk2]
          | false =>
            rw [hended] at hflag
            simp only [Bool.false_eq_true, if_false] at hflag ⊢
            obtain ⟨hobl2, hk2, hrl, hrloff, hwfr, hremr, hneo2⟩ := hflag
            refine ⟨hobl2, ?_, ?_, hrloff, hwfr, ?_, ?_⟩
            · rw [hrem]
              simpa using hk2
            · rw [hrem, hrl]
              simp
            · rw [hrem, hremr]
              simp
            · rw [hrem]
              simp only [List.getD_cons_succ, List.take, sumNeo] at hneo2 ⊢
              simp [sumNeo] at hneo2 ⊢
              omega

theorem direntsFrom_length_le (l : List SmbDirent) (off : Nat) :
    (direntsFrom l off).length ≤ l.length := by
  induction l generalizing off with
  | nil => cases off <;> simp [direntsFrom]
  | cons d ds ih =>
    cases off with
    | zero => simp [direntsFrom_zero]
    | succ o =>
      unfold direntsFrom
      by_cases h : o + 1 < direntReclen d
      · rw [if_pos h]
        simp
      · rw [if_neg h]
        calc (direntsFrom ds (o + 1 - direntReclen d)).length ≤ ds.length := ih _
          _ ≤ (d :: ds).length := by simp

theorem remaining_length_le (ctx : DirCtx) :
    (remaining ctx).length ≤ ctx.buffer.length + ctx.stream.length := by
  unfold remaining
  rw [List.length_append]
  have := direntsFrom_length_le ctx.buffer ctx.dirent_offset
  omega

theorem neo_ge_four (infoSize : Nat) (d : SmbDirent) :
    4 ≤ next_entry_offset infoSize d := by
  unfold next_entry_offset name_len_utf16
  have h5 : 5 ≤ infoSize - 1 + 2 * (d.name.length + 1) + 3 := by omega
  have : 1 ≤ (infoSize - 1 + 2 * (d.name.length + 1) + 3) / 4 := by omega
  omega

theorem runBatch_spec (infoSize : Nat) (outBufLen : Int) (ctx : DirCtx)
    (hwf : ctxWF ctx)
    (hbound : ∀ d ∈ remaining ctx, direntReclen d ≤ PAGE_SIZE)
    (hobl : 0 ≤ outBufLen) :
    ∃ k, k ≤ (remaining ctx).length
    ∧ (runBatch infoSize outBufLen ctx).emitted = (remaining ctx).take k
    ∧ (runBatch infoSize outBufLen ctx).searchCount = k
    ∧ ((runBatch infoSize outBufLen ctx).endOfSearch = true →
        k = (remaining ctx).length
        ∧ remaining (runBatch infoSize outBufLen ctx).ctx = []
        ∧ ctxWF (runBatch infoSize outBufLen ctx).ctx
        ∧ (runBatch infoSize outBufLen ctx).lastNameOffset = 0)
    ∧ ((runBatch infoSize outBufLen ctx).endOfSearch = false →
        k < (remaining ctx).length
        ∧ remaining (runBatch infoSize outBufLen ctx).ctx = (remaining ctx).drop k
        ∧ ctxWF (runBatch infoSize outBufLen ctx).ctx
        ∧ (runBatch infoSize outBufLen ctx).lastNameOffset =
            (if k = 0 then 0 else sumNeo infoSize ((remaining ctx).take (k - 1)))
        ∧ ((next_entry_offset infoSize ((remaining ctx).getD k default) : Int)
            > outBufLen - (sumNeo infoSize ((remaining ctx).take k) : Int))) := by
  have hfuel : (remaining ctx).length + 1 ≤ ctx.buffer.length + ctx.stream.length + 1 := by
    have := remaining_length_le ctx
    omega
  have hpost := emitLoop_spec infoSize (ctx.buffer.length + ctx.stream.length + 1) ctx
    ⟨outBufLen, 0, 0, 0, []⟩ 0 hwf hbound (by simpa using hobl) hfuel
  obtain ⟨k, hk, hemit, hdata, hnum, hlast, hflag⟩ := hpost
  set R := emitLoop infoSize (ctx.buffer.length + ctx.stream.length + 1) ctx
    ⟨outBufLen, 0, 0, 0, []⟩ 0 with hR
  refine ⟨k, hk, ?_, ?_, ?_, ?_⟩
  · unfold runBatch
    dsimp only
    rw [← hR]
    by_cases h : R.2.1.out_buf_len < 0
    · rw [if_pos h]
      simpa using hemit
    · rw [if_neg h]
      simpa using hemit
  · unfold runBatch
    dsimp only
    rw [← hR]
    by_cases h : R.2.1.out_buf_len < 0
    · rw [if_pos h]
      simpa using hnum
    · rw [if_neg h]
      simpa using hnum
  · intro hend
    cases hb : R.2.2.1 with
    | false =>
      rw [hb] at hflag
      simp only [Bool.false_eq_true, if_false] at hflag
      have hneg : R.2.1.out_buf_len < 0 := by
        rw [hflag.1]
        norm_num
      unfold runBatch at hend
      dsimp only at hend
      rw [← hR, if_pos hneg] at hend
      simp at hend
    | true =>
      rw [hb] at hflag
      simp only [if_pos rfl] at hflag
      obtain ⟨hk2, hrema, hwfa, hobla⟩ := hflag
      have hnneg : ¬ R.2.1.out_buf_len < 0 := by omega
      unfold runBatch
      dsimp only
      rw [← hR, if_neg hnneg]
      exact ⟨hk2, hrema, hwfa, rfl⟩
  · intro hend
    cases hb : R.2.2.1 with
    | true =>
      rw [hb] at hflag
      simp only [if_pos rfl] at hflag
      have hnneg : ¬ R.2.1.out_buf_len < 0 := by
        have := hflag.2.2.2
        omega
      unfold runBatch at hend
      dsimp only at hend
      rw [← hR, if_neg hnneg] at hend
      simp at hend
    | false =>
      rw [hb] at hflag
      simp only [Bool.false_eq_true, if_false] at hflag
      obtain ⟨hobl2, hk2, hrl, hrloff, hwfr, hremr, hneo2⟩ := hflag
      have hneg : R.2.1.out_buf_len < 0 := by
        rw [hobl2]
        norm_num
      unfold runBatch
      dsimp only
      rw [← hR, if_pos hneg]
      refine ⟨hk2, ?_, ?_, ?_, ?_⟩
      · simpa using hremr
      · simpa using hwfr
      · simpa using hlast
      · simpa using hneo2

theorem runBatches_spec (infoSize : Nat) (outBufLen : Int) (hobl : 0 ≤ outBufLen) :
    ∀ n ctx, ctxWF ctx →
    (∀ d ∈ remaining ctx, direntReclen d ≤ PAGE_SIZE) →
    (∀ d ∈ remaining ctx, (next_entry_offset infoSize d : Int) ≤ outBufLen) →
    (remaining ctx).length ≤ n →
    runBatches infoSize outBufLen (n + 1) ctx = remaining ctx := by
  intro n
  induction n with
  | zero =>
    intro ctx hwf hbound hneo hlen
    obtain ⟨k, hk, hemit, hnum, hended, hpart⟩ :=
      runBatch_spec infoSize outBufLen ctx hwf hbound hobl
    have hrem0 : remaining ctx = [] := List.length_eq_zero.mp (by omega)
    cases hb : (runBatch infoSize outBufLen ctx).endOfSearch with
    | false =>
      have := (hpart hb).1
      rw [hrem0] at this
      simp at this
    | true =>
      unfold runBatches
      dsimp only
      rw [hb]
      simp only [if_pos rfl]
      rw [hemit, hrem0]
      simp
  | succ m ih =>
    intro ctx hwf hbound hneo hlen
    obtain ⟨k, hk, hemit, hnum, hended, hpart⟩ :=
      runBatch_spec infoSize outBufLen ctx hwf hbound hobl
    cases hb : (runBatch infoSize outBufLen ctx).endOfSearch with
    | true =>
      obtain ⟨hklen, _, _, _⟩ := hended hb
      unfold runBatches
      dsimp only
      rw [hb]
      simp only [if_pos rfl]
      rw [hemit, hklen]
      exact List.take_length (remaining ctx)
    | false =>
      obtain ⟨hklen, hremr, hwfr, hlastr, hneoK⟩ := hpart hb
      have hk1 : 1 ≤ k := by
        by_contra hzero
        push_neg at hzero
        have hk0 : k = 0 := by omega
        rw [hk0] at hneoK
        have hmem : (remaining ctx).getD 0 default ∈ remaining ctx := by
          rw [List.getD_eq_getElem _ _ (by omega)]
          exact List.getElem_mem _
        rw [List.take_zero] at hneoK
        have h0 : sumNeo infoSize ([] : List SmbDirent) = 0 := rfl
        rw [h0] at hneoK
        have := hneo _ hmem
        omega
      have hrec := ih (runBatch infoSize outBufLen ctx).ctx hwfr
        (fun d hd => hbound d (by rw [hremr] at hd; exact List.mem_of_mem_drop hd))
        (fun d hd => hneo d (by rw [hremr] at hd; exact List.mem_of_mem_drop hd))
        (by rw [hremr, List.length_drop]; omega)
      unfold runBatches
      dsimp only
      rw [hb]
      simp only [Bool.false_eq_true, if_false]
      rw [hemit, hrec, hremr]
      exact List.take_append_drop k (remaining ctx)

theorem sumNeo_pos (infoSize : Nat) (l : List SmbDirent) (h : l ≠ []) :
    0 < sumNeo infoSize l := by
  cases l with
  | nil => simp at h
  | cons d t =>
    have := neo_ge_four infoSize d
    simp [sumNeo]
    omega

/-- C7 (amended): for any directory whose entries fit the page buffer and
the response budget, (a) FIND_FIRST followed by FIND_NEXTs with the same
search handle until `EndofSearch` emits exactly the directory listing — no
gaps and no repeats; (b) every partial batch (`EndofSearch = 0`) emits a
non-empty prefix of the not-yet-emitted entries, rewinds `dirent_offset` by
the failing dirent's record length so the next call resumes at exactly that
entry, and reports `LastNameOffset` equal to the data-area offset of the
batch's last emitted record — which is non-zero precisely when the batch
holds at least two entries and zero when it holds a single entry (contrary
to the claim's "non-zero LastNameOffset"); (c) a final batch
(`EndofSearch = 1`) emits everything left and reports `LastNameOffset = 0`. -/
theorem find_enum_resume_spec (infoSize : Nat) (outBufLen : Int) (dir : List SmbDirent)
    (hobl : 0 ≤ outBufLen)
    (hrec : ∀ d ∈ dir, direntReclen d ≤ PAGE_SIZE)
    (hneo : ∀ d ∈ dir, (next_entry_offset infoSize d : Int) ≤ outBufLen) :
    runBatches infoSize outBufLen (dir.length + 1) (initCtx dir) = dir
    ∧ (∀ ctx, ctxWF ctx →
        (∀ d ∈ remaining ctx, direntReclen d ≤ PAGE_SIZE) →
        (∀ d ∈ remaining ctx, (next_entry_offset infoSize d : Int) ≤ outBufLen) →
        (runBatch infoSize outBufLen ctx).endOfSearch = false →
        ∃ k, 1 ≤ k ∧ k < (remaining ctx).length
          ∧ (runBatch infoSize outBufLen ctx).emitted = (remaining ctx).take k
          ∧ remaining (runBatch infoSize outBufLen ctx).ctx = (remaining ctx).drop k
          ∧ (runBatch infoSize outBufLen ctx).lastNameOffset =
              (if k = 1 then 0 else sumNeo infoSize ((remaining ctx).take (k - 1)))
          ∧ (2 ≤ k → (runBatch infoSize outBufLen ctx).lastNameOffset ≠ 0))
    ∧ (∀ ctx, ctxWF ctx →
        (∀ d ∈ remaining ctx, direntReclen d ≤ PAGE_SIZE) →
        (runBatch infoSize outBufLen ctx).endOfSearch = true →
        (runBatch infoSize outBufLen ctx).emitted = remaining ctx
          ∧ (runBatch infoSize outBufLen ctx).lastNameOffset = 0) := by
  refine ⟨?_, ?_, ?_⟩
  · have hinit : remaining (initCtx dir) = dir := by
      unfold initCtx remaining
      rw [direntsFrom_zero]
      rfl
    have := runBatches_spec infoSize outBufLen hobl dir.length (initCtx dir)
      ⟨⟨[], [], rfl, rfl⟩, rfl⟩ (by rw [hinit]; exact hrec) (by rw [hinit]; exact hneo)
      (by rw [hinit])
    rw [hinit] at this
    exact this
  · intro ctx hwf hbound hneoc hend
    obtain ⟨k, hk, hemit, hnum, hended, hpart⟩ :=
      runBatch_spec infoSize outBufLen ctx hwf hbound hobl
    obtain ⟨hklen, hremr, hwfr, hlastr, hneoK⟩ := hpart hend
    have hk1 : 1 ≤ k := by
      by_contra hzero
      push_neg at hzero
      have hk0 : k = 0 := by omega
      rw [hk0] at hneoK
      have hmem : (remaining ctx).getD 0 default ∈ remaining ctx := by
        rw [List.getD_eq_getElem _ _ (by omega)]
        exact List.getElem_mem _
      rw [List.take_zero] at hneoK
      have h0 : sumNeo infoSize ([] : List SmbDirent) = 0 := rfl
      rw [h0] at hneoK
      have := hneoc _ hmem
      omega
    refine ⟨k, hk1, hklen, hemit, hremr, ?_, ?_⟩
    · rw [hlastr, if_neg (by omega : ¬ k = 0)]
      by_cases h1 : k = 1
      · rw [if_pos h1, h1]
        rfl
      · rw [if_neg h1]
    · intro h2
      rw [hlastr, if_neg (by omega : ¬ k = 0)]
      have hne : (remaining ctx).take (k - 1) ≠ [] := by
        have : ((remaining ctx).take (k - 1)).length = min (k - 1) (remaining ctx).length := by
          simp
        intro hnil
        rw [hnil] at this
        simp at this
        omega
      have := sumNeo_pos infoSize _ hne
      omega
  · intro ctx hwf hbound hend
    obtain ⟨k, hk, hemit, hnum, hended, hpart⟩ :=
      runBatch_spec infoSize outBufLen ctx hwf hbound hobl
    obtain ⟨hklen, _, _, hlast0⟩ := hended hend
    refine ⟨?_, hlast0⟩
    rw [hemit, hklen]
    exact List.take_length (remaining ctx)

/-- C7 counterexample: with a wire record size of 100 bytes and a response
budget of 150, FIND_FIRST over a two-entry directory fits only the first
entry: it returns a partial batch (`EndofSearch = 0`, `SearchCount = 1`),
but `LastNameOffset` is 0, not non-zero as the claim states
(`last_entry_offset` is the data offset of the last emitted record, which
is 0 for the first record); the subsequent FIND_NEXT still resumes exactly
at the second entry. -/
theorem find_first_lastnameoffset_counterexample :
    (runBatch 94 150 (initCtx [dirA, dirB])).endOfSearch = false
    ∧ (runBatch 94 150 (initCtx [dirA, dirB])).lastNameOffset = 0
    ∧ (runBatch 94 150 (initCtx [dirA, dirB])).searchCount = 1
    ∧ (runBatch 94 150 (initCtx [dirA, dirB])).emitted = [dirA]
    ∧ (runBatch 94 150 ((runBatch 94 150 (initCtx [dirA, dirB])).ctx)).emitted = [dirB]
    ∧ (runBatch 94 150 ((runBatch 94 150 (initCtx [dirA, dirB])).ctx)).endOfSearch = true := by
  decide

/-- Witness for the amended C7 theorem: a two-entry directory enumerated to
completion across the partial FIND_FIRST and the resuming FIND_NEXT. -/
theorem find_enum_resume_spec_witness :
    runBatches 94 150 ([dirA, dirB].length + 1) (initCtx [dirA, dirB]) = [dirA, dirB] :=
  (find_enum_resume_spec 94 150 [dirA, dirB] (by decide) (by decide) (by decide)).1

end Cifsd
